import Mathlib

/-!
Verification of the relationship subsystem of the family-tree backend
(`backend/app/services/relationship_service.py`,
`backend/app/services/person_service.py`, `backend/app/schemas/schemas.py`,
`backend/app/models/database.py`) against its design specification.

The Python services are shallowly embedded: the database session is a record
of lists (`DBState`), SQLAlchemy queries become list searches in insertion
order, `scalar_one_or_none` becomes `List.find?`, and every service method is
a pure function from the state (and its arguments) to a result together with
the successor state.  UUIDs are modelled as natural numbers.
-/

namespace FamilyTreeApp

/-- Calendar date, modelled as the (year, month, day) triple that Python's
`datetime.date` compares lexicographically. -/
structure Date where
  year : Nat
  month : Nat
  day : Nat
deriving DecidableEq, Repr

/-- Python `a < b` on dates: lexicographic on (year, month, day). -/
def dateLtB (a b : Date) : Bool :=
  a.year < b.year ||
    (a.year == b.year &&
      (a.month < b.month || (a.month == b.month && a.day < b.day)))

/-- The closed relationship-category enumeration
(`RelationshipCategory` in `relationship_service.py`, also the pydantic
pattern `^(family_line|partner|sibling|extended_family)$`). -/
inductive RCategory where
  | family_line
  | partner
  | sibling
  | extended_family
deriving DecidableEq, Repr

/-- `Relationship` ORM row (`models/database.py`), with uuid columns as `Nat`. -/
structure Relationship where
  id : Nat
  from_person_id : Nat
  to_person_id : Nat
  relationship_category : RCategory
  relationship_subtype : Option String
  generation_difference : Option Int
  start_date : Option Date
  end_date : Option Date
  is_active : Bool
  notes : Option String
deriving DecidableEq, Repr

/-- `Person` ORM row (`models/database.py`), restricted to the columns the
relationship/person services read. -/
structure Person where
  id : Nat
  family_tree_id : Nat
  birth_date : Option Date
  death_date : Option Date
deriving DecidableEq, Repr

/-- The database session state: the `family_trees` table (as its ids), the
`people` and `relationships` tables in insertion order, plus the id
generator for newly inserted relationship rows. -/
structure DBState where
  trees : List Nat
  persons : List Person
  rels : List Relationship
  nextId : Nat
deriving Repr

/-- `RelationshipCreate` payload (`schemas.py`). -/
structure RelationshipCreate where
  from_person_id : Nat
  to_person_id : Nat
  relationship_category : RCategory
  relationship_subtype : Option String
  generation_difference : Option Int
  start_date : Option Date
  end_date : Option Date
  is_active : Bool
  notes : Option String
deriving DecidableEq, Repr

/-- The error kinds raised by the embedded service layer (`HTTPException`
details in `relationship_service.py`). -/
inductive ServiceError where
  | selfRelationship
  | personNotFound
  | familyTreeNotFound
  | differentTrees
  | duplicateRelationship
  | relationshipNotFound
  | invalidSubtype
  | genRequiredForFamilyLine
  | genMustBeUnit
  | genMustBeZero
deriving DecidableEq, Repr

/-- Error kinds recorded by the pydantic field validation of
`RelationshipBase` / `RelationshipCreate` (`schemas.py`). -/
inductive SchemaError where
  | genOutOfBounds
  | genRequired
  | genNotAllowed
  | invalidSubtypeForCategory
  | samePerson
deriving DecidableEq, Repr

/-- Allowed subtypes per category in the pydantic validator
`RelationshipBase.validate_relationship_subtype` (`schemas.py`). -/
def schemaSubtypes : RCategory → List String
  | .family_line => ["biological", "adoptive", "step", "foster"]
  | .partner => ["married", "engaged", "dating", "divorced", "separated", "widowed"]
  | .sibling => ["biological", "half", "step", "adoptive"]
  | .extended_family => ["aunt", "uncle", "cousin", "grandparent", "grandchild", "in_law"]

/-- pydantic errors for the `generation_difference` field: the `ge=-1, le=1`
field bound, then (only when the bound passes) the
`validate_generation_difference` validator. -/
def schemaGenErrors (p : RelationshipCreate) : List SchemaError :=
  match p.generation_difference with
  | some g =>
      if g < -1 || 1 < g then [.genOutOfBounds]
      else if p.relationship_category ≠ RCategory.family_line then [.genNotAllowed]
      else []
  | none =>
      if p.relationship_category = RCategory.family_line then [.genRequired] else []

/-- pydantic errors for the `relationship_subtype` field
(`validate_relationship_subtype`, which is skipped on `None`). -/
def schemaSubtypeErrors (p : RelationshipCreate) : List SchemaError :=
  match p.relationship_subtype with
  | some v =>
      if v ∈ schemaSubtypes p.relationship_category then []
      else [.invalidSubtypeForCategory]
  | none => []

/-- pydantic errors for the `to_person_id` field
(`RelationshipCreate.validate_different_people`). -/
def schemaSamePersonErrors (p : RelationshipCreate) : List SchemaError :=
  if p.to_person_id = p.from_person_id then [.samePerson] else []

/-- All pydantic validation errors of a `RelationshipCreate` payload, in the
field-declaration order in which pydantic v1 collects them
(`generation_difference`, then `relationship_subtype`, then `to_person_id`). -/
def schemaErrors (p : RelationshipCreate) : List SchemaError :=
  schemaGenErrors p ++ schemaSubtypeErrors p ++ schemaSamePersonErrors p

/-- `scalar_one_or_none` over the people table (`_get_person`). -/
def findPerson (s : DBState) (pid : Nat) : Option Person :=
  s.persons.find? (fun q => q.id == pid)

/-- `_validate_relationship_people`: same person, existence of both endpoints,
same family tree. -/
def validateRelationshipPeople (s : DBState) (fromId toId : Nat) :
    Except ServiceError (Person × Person) :=
  if fromId = toId then .error .selfRelationship
  else
    match findPerson s fromId with
    | none => .error .personNotFound
    | some fp =>
        match findPerson s toId with
        | none => .error .personNotFound
        | some tp =>
            if fp.family_tree_id ≠ tp.family_tree_id then .error .differentTrees
            else .ok (fp, tp)

/-- The query of `_check_duplicate_relationship` / `_relationship_exists`:
an existing row with the same `from_person_id`, `to_person_id` and
`relationship_category`. -/
def findDuplicate (s : DBState) (fromId toId : Nat) (cat : RCategory) :
    Option Relationship :=
  s.rels.find? (fun r =>
    r.from_person_id == fromId && r.to_person_id == toId &&
      r.relationship_category == cat)

/-- `_relationship_exists`. -/
def relationshipExists (s : DBState) (fromId toId : Nat) (cat : RCategory) : Bool :=
  (findDuplicate s fromId toId cat).isSome

/-- Allowed subtypes per category in the service-layer rule check
(`_validate_relationship_rules`). -/
def serviceSubtypes : RCategory → List String
  | .family_line => ["biological_parent", "adoptive_parent", "step_parent", "foster_parent"]
  | .partner => ["spouse", "domestic_partner", "engaged"]
  | .sibling => ["full_sibling", "half_sibling", "step_sibling", "adoptive_sibling"]
  | .extended_family => ["grandparent", "aunt_uncle", "cousin", "niece_nephew"]

/-- `_validate_relationship_rules`: the subtype check first (`subtype not in
valid_subtypes[category]`, which also fires on a missing subtype), then the
generation-difference rules. -/
def validateRelationshipRules (p : RelationshipCreate) : Except ServiceError Unit :=
  let subtypeOk : Bool :=
    match p.relationship_subtype with
    | some v => v ∈ serviceSubtypes p.relationship_category
    | none => false
  if ¬ subtypeOk then .error .invalidSubtype
  else
    match p.relationship_category with
    | .family_line =>
        match p.generation_difference with
        | none => .error .genRequiredForFamilyLine
        | some g => if g.natAbs ≠ 1 then .error .genMustBeUnit else .ok ()
    | .partner =>
        match p.generation_difference with
        | some g => if g ≠ 0 then .error .genMustBeZero else .ok ()
        | none => .ok ()
    | .sibling =>
        match p.generation_difference with
        | some g => if g ≠ 0 then .error .genMustBeZero else .ok ()
        | none => .ok ()
    | .extended_family => .ok ()

/-- Whether a category is mirrored
(`relationship.relationship_category in ["partner", "sibling"]`). -/
def symmetricCat (c : RCategory) : Bool :=
  c = RCategory.partner || c = RCategory.sibling

/-- The row inserted by `create_relationship` for a payload, with the
database-generated primary key. -/
def rowOfPayload (p : RelationshipCreate) (rid : Nat) : Relationship :=
  { id := rid
    from_person_id := p.from_person_id
    to_person_id := p.to_person_id
    relationship_category := p.relationship_category
    relationship_subtype := p.relationship_subtype
    generation_difference := p.generation_difference
    start_date := p.start_date
    end_date := p.end_date
    is_active := p.is_active
    notes := p.notes }

/-- The mirror row built by `_create_reciprocal_relationship`: swapped
endpoints, same category/subtype/dates/notes/status, and
`generation_difference = 0`. -/
def mirrorOf (r : Relationship) (rid : Nat) : Relationship :=
  { id := rid
    from_person_id := r.to_person_id
    to_person_id := r.from_person_id
    relationship_category := r.relationship_category
    relationship_subtype := r.relationship_subtype
    generation_difference := some 0
    start_date := r.start_date
    end_date := r.end_date
    is_active := r.is_active
    notes := r.notes }

/-- The state after `create_relationship` has inserted and committed the
payload's row. -/
def afterInsert (s : DBState) (p : RelationshipCreate) : DBState :=
  { s with rels := s.rels ++ [rowOfPayload p s.nextId], nextId := s.nextId + 1 }

/-- The state after `create_relationship` has additionally inserted and
committed the reciprocal row. -/
def afterInsertMirror (s : DBState) (p : RelationshipCreate) : DBState :=
  { s with
    rels := (s.rels ++ [rowOfPayload p s.nextId]) ++
      [mirrorOf (rowOfPayload p s.nextId) (s.nextId + 1)]
    nextId := s.nextId + 2 }

/-- `create_relationship`: people validation, duplicate check, rule check,
insert, then `_create_reciprocal_relationship` for partner/sibling. -/
def createRelationship (s : DBState) (p : RelationshipCreate) :
    Except ServiceError Relationship × DBState :=
  match validateRelationshipPeople s p.from_person_id p.to_person_id with
  | .error e => (.error e, s)
  | .ok _ =>
      if (findDuplicate s p.from_person_id p.to_person_id
            p.relationship_category).isSome then
        (.error .duplicateRelationship, s)
      else
        match validateRelationshipRules p with
        | .error e => (.error e, s)
        | .ok _ =>
            let r := rowOfPayload p s.nextId
            let s1 := afterInsert s p
            if symmetricCat p.relationship_category then
              if relationshipExists s1 p.to_person_id p.from_person_id
                  p.relationship_category then
                (.ok r, s1)
              else (.ok r, afterInsertMirror s p)
            else (.ok r, s1)

/-- `get_relationship`: `scalar_one_or_none` on the relationship id. -/
def getRelationship (s : DBState) (rid : Nat) : Option Relationship :=
  s.rels.find? (fun r => r.id == rid)

/-- Row deletion: removing the row with the given primary key. -/
def deleteRow (rels : List Relationship) (rid : Nat) : List Relationship :=
  rels.filter (fun r => r.id ≠ rid)

/-- `delete_relationship`: fetch the row, run
`_delete_reciprocal_relationship` (which for partner/sibling deletes the row
with swapped endpoints and the same category, when present), then delete the
row itself. -/
def deleteRelationship (s : DBState) (rid : Nat) :
    Except ServiceError Unit × DBState :=
  match getRelationship s rid with
  | none => (.error .relationshipNotFound, s)
  | some r =>
      let s1 : DBState :=
        if symmetricCat r.relationship_category then
          match s.rels.find? (fun x =>
              x.from_person_id == r.to_person_id &&
                x.to_person_id == r.from_person_id &&
                x.relationship_category == r.relationship_category) with
          | some m => { s with rels := deleteRow s.rels m.id }
          | none => s
        else s
      (.ok (), { s1 with rels := deleteRow s1.rels rid })

/-- Modelled from the spec: `RelationshipValidation`, the `{valid, message}`
verdict of `validate_only`; the class is imported by the service from
`app.schemas.schemas` but not declared in the sources. -/
structure RelationshipValidation where
  valid : Bool
  message : String
deriving DecidableEq, Repr

/-- The message text of the `HTTPException` details, as reproduced by
`validate_relationship`'s error handler. -/
def errorMessage : ServiceError → String
  | .selfRelationship => "Cannot create relationship between person and themselves"
  | .personNotFound => "Person not found"
  | .differentTrees => "Both people must be in the same family tree"
  | .duplicateRelationship => "Relationship already exists between these people"
  | .relationshipNotFound => "Relationship not found"
  | .familyTreeNotFound => "Family tree not found"
  | .invalidSubtype => "Invalid subtype for category"
  | .genRequiredForFamilyLine => "Generation difference required for family_line relationships"
  | .genMustBeUnit => "Family line relationships must have generation difference of +1 or -1"
  | .genMustBeZero => "relationships must have generation difference of 0"

/-- `validate_relationship`: the same people/rules pipeline, then the
duplicate check with `raise_error=False`; every outcome is reported as a
verdict and nothing is added to the session. -/
def validateRelationship (s : DBState) (p : RelationshipCreate) :
    RelationshipValidation × DBState :=
  let verdict :=
    match validateRelationshipPeople s p.from_person_id p.to_person_id with
    | .error e => RelationshipValidation.mk false (errorMessage e)
    | .ok _ =>
        match validateRelationshipRules p with
        | .error e => RelationshipValidation.mk false (errorMessage e)
        | .ok _ =>
            if (findDuplicate s p.from_person_id p.to_person_id
                  p.relationship_category).isSome then
              RelationshipValidation.mk false "Relationship already exists"
            else
              RelationshipValidation.mk true "Relationship is valid"
  (verdict, s)

/-- `calculate_person_age`'s arithmetic on resolved dates: clamp the end date
to the death date when the as-of date lies after it, take the year
difference, and subtract one when the end month/day precedes the birth
month/day. -/
def personAgeCore (birth : Date) (death : Option Date) (asOf : Date) : Int :=
  let endD : Date :=
    match death with
    | some dd => if dateLtB dd asOf then dd else asOf
    | none => asOf
  let base : Int := (endD.year : Int) - (birth.year : Int)
  if endD.month < birth.month ||
      (endD.month == birth.month && endD.day < birth.day) then
    base - 1
  else base

/-- `calculate_person_age` (`person_service.py`): `None` without a birth
date, otherwise the whole-year count up to the (possibly death-clamped)
as-of date. -/
def calculatePersonAge (s : DBState) (pid : Nat) (asOf : Date) :
    Except ServiceError (Option Int) :=
  match findPerson s pid with
  | none => .error .personNotFound
  | some p =>
      match p.birth_date with
      | none => .ok none
      | some b => .ok (some (personAgeCore b p.death_date asOf))

/-- `_verify_family_tree_exists`. -/
def familyTreeExists (s : DBState) (tid : Nat) : Bool :=
  s.trees.any (fun t => t == tid)

/-- The join predicate of `get_family_tree_relationships`: the relationship's
`from_person_id` resolves to a person of the given tree. -/
def inTree (s : DBState) (tid : Nat) (r : Relationship) : Bool :=
  s.persons.any (fun q => q.id == r.from_person_id && q.family_tree_id == tid)

/-- `get_family_tree_relationships`: all relationships whose from-person
belongs to the tree, after verifying the tree exists. -/
def getFamilyTreeRelationships (s : DBState) (tid : Nat) :
    Except ServiceError (List Relationship) :=
  if familyTreeExists s tid then .ok (s.rels.filter (inTree s tid))
  else .error .familyTreeNotFound

/-- Modelled from the spec: `InferredRelationship`, the proposal record
`{type, person1_id, person2_id, confidence, reason}` of the inference
engine; the class is imported by the service from `app.schemas.schemas` but
not declared in the sources. -/
structure InferredRelationship where
  type : String
  person1_id : Nat
  person2_id : Nat
  confidence : String
  reason : String
deriving DecidableEq, Repr

/-- One insertion into the `parent_child_map` dictionary: append the child
to the parent's list, creating the key on first use (dictionary keys keep
insertion order). -/
def addChild (m : List (Nat × List Nat)) (parent child : Nat) :
    List (Nat × List Nat) :=
  match m with
  | [] => [(parent, [child])]
  | (k, cs) :: rest =>
      if k = parent then (k, cs ++ [child]) :: rest
      else (k, cs) :: addChild rest parent child

/-- The `parent_child_map` built by `infer_missing_relationships` from the
`family_line` edges with `generation_difference == -1`. -/
def parentChildMap (rels : List Relationship) : List (Nat × List Nat) :=
  rels.foldl
    (fun m r =>
      if r.relationship_category = RCategory.family_line ∧
          r.generation_difference = some (-1) then
        addChild m r.from_person_id r.to_person_id
      else m)
    []

/-- The ordered pairs `(children[i], children[j])` with `i < j`, in the order
produced by the nested `for i, child1 in enumerate(children): for child2 in
children[i+1:]` loops. -/
def siblingPairs : List Nat → List (Nat × Nat)
  | [] => []
  | c :: rest => rest.map (fun d => (c, d)) ++ siblingPairs rest

/-- The reason string of a sibling proposal. -/
def siblingReason (parent : Nat) : String :=
  "Both have same parent (" ++ toString parent ++ ")"

/-- The reason string of a grandparent proposal. -/
def grandparentReason (parent : Nat) : String :=
  "Parent-child chain through " ++ toString parent

/-- The sibling-inference pass of `infer_missing_relationships`: for each
parent's child list, propose each enumerated pair for which no
`sibling` row from the first to the second child exists. -/
def inferSiblings (s : DBState) (m : List (Nat × List Nat)) :
    List InferredRelationship :=
  m.flatMap (fun pc =>
    (siblingPairs pc.2).filterMap (fun cd =>
      if relationshipExists s cd.1 cd.2 RCategory.sibling then none
      else
        some
          { type := "sibling"
            person1_id := cd.1
            person2_id := cd.2
            confidence := "high"
            reason := siblingReason pc.1 }))

/-- The grandparent-inference pass of `infer_missing_relationships`:
`if parent_id in parent_child_map: grandparents = parent_child_map[parent_id]`
followed by the nested loops over `grandparents` and `children`, proposing
the pairs with no existing `family_line` row. -/
def inferGrandparents (s : DBState) (m : List (Nat × List Nat)) :
    List InferredRelationship :=
  m.flatMap (fun pc =>
    match m.find? (fun kv => kv.1 == pc.1) with
    | some kv =>
        kv.2.flatMap (fun g =>
          pc.2.filterMap (fun c =>
            if relationshipExists s g c RCategory.family_line then none
            else
              some
                { type := "grandparent"
                  person1_id := g
                  person2_id := c
                  confidence := "high"
                  reason := grandparentReason pc.1 }))
    | none => [])

/-- `infer_missing_relationships`: build the parent/child map over the
tree's relationships, then run the sibling and grandparent passes (the
`spouse_map` the source also builds is never read afterwards). -/
def inferMissingRelationships (s : DBState) (tid : Nat) :
    Except ServiceError (List InferredRelationship) :=
  match getFamilyTreeRelationships s tid with
  | .error e => .error e
  | .ok rels =>
      let m := parentChildMap rels
      .ok (inferSiblings s m ++ inferGrandparents s m)

/-- Modelled from the spec: `RelationshipPath`, the `{path, found}` result of
`find_relationship_path`; the class is imported by the service from
`app.schemas.schemas` but not declared in the sources. -/
structure RelationshipPath where
  path : List Relationship
  relationship_found : Bool
deriving DecidableEq, Repr

/-- The neighbor list `graph[n]` of the adjacency dictionary built by
`find_relationship_path`: the targets of edges leaving `n`, plus the sources
of partner/sibling edges entering `n`, in relationship order. -/
def neighborsOf (rels : List Relationship) (n : Nat) : List Nat :=
  rels.flatMap (fun r =>
    (if r.from_person_id = n then [r.to_person_id] else []) ++
      (if symmetricCat r.relationship_category ∧ r.to_person_id = n then
        [r.from_person_id]
      else []))

/-- Whether `n` is a key of the adjacency dictionary (every relationship adds
both of its endpoints as keys). -/
def inGraphB (rels : List Relationship) (n : Nat) : Bool :=
  rels.any (fun r => r.from_person_id == n || r.to_person_id == n)

/-- Whether a relationship row was stored in `relationship_map` under the key
`(a, b)`: a directed edge `a → b`, or a partner/sibling edge `b → a`. -/
def relMapMatchesB (a b : Nat) (r : Relationship) : Bool :=
  (r.from_person_id == a && r.to_person_id == b) ||
    (symmetricCat r.relationship_category && r.to_person_id == a &&
      r.from_person_id == b)

/-- `relationship_map.get((a, b))`: the dictionary keeps the last writer of
the key. -/
def relMapLookup (rels : List Relationship) (a b : Nat) : Option Relationship :=
  (rels.filter (relMapMatchesB a b)).getLast?

/-- The body of the `for neighbor in graph.get(current, [])` loop of
`_find_shortest_path`: skip visited neighbors, mark the rest visited, and
enqueue them with the extended relationship path when the relationship map
has the edge. -/
def enqueueStep (rmap : Nat → Nat → Option Relationship) (current : Nat)
    (path : List Relationship)
    (st : List (Nat × List Relationship) × List Nat) (nb : Nat) :
    List (Nat × List Relationship) × List Nat :=
  if nb ∈ st.2 then st
  else
    match rmap current nb with
    | some rel => (st.1 ++ [(nb, path ++ [rel])], nb :: st.2)
    | none => (st.1, nb :: st.2)

/-- The `while queue` loop of `_find_shortest_path`, with explicit fuel (the
source loop terminates because every enqueue freshly marks a node visited;
`findShortestPath` supplies fuel exceeding the possible number of
iterations).  Dequeued entries past the depth bound are skipped before the
goal test; reaching the goal returns the recorded path; otherwise the
neighbors are expanded and appended. -/
def bfsAux (adj : Nat → List Nat) (rmap : Nat → Nat → Option Relationship)
    (endId maxDepth : Nat) :
    Nat → List (Nat × List Relationship) → List Nat → List Relationship
  | 0, _, _ => []
  | _ + 1, [], _ => []
  | fuel + 1, (current, path) :: queue, visited =>
      if maxDepth ≤ path.length then
        bfsAux adj rmap endId maxDepth fuel queue visited
      else if current = endId then path
      else
        let st := (adj current).foldl (enqueueStep rmap current path)
          ([], visited)
        bfsAux adj rmap endId maxDepth fuel (queue ++ st.1) st.2

/-- `_find_shortest_path`: empty unless both endpoints are graph keys,
otherwise the BFS from the singleton queue `[(start, [])]` with `start`
visited. -/
def findShortestPath (rels : List Relationship) (startId endId : Nat)
    (maxDepth : Nat) : List Relationship :=
  if inGraphB rels startId && inGraphB rels endId then
    bfsAux (neighborsOf rels) (relMapLookup rels) endId maxDepth
      (2 * rels.length + 2) [(startId, [])] [startId]
  else []

/-- `find_relationship_path`: verify both people, short-circuit the
same-person case, fetch the tree's relationships, run the BFS, and report
`relationship_found = (len(path) > 0)`. -/
def findRelationshipPath (s : DBState) (p1 p2 : Nat) (maxDepth : Nat) :
    Except ServiceError RelationshipPath :=
  match findPerson s p1 with
  | none => .error .personNotFound
  | some per1 =>
      match findPerson s p2 with
      | none => .error .personNotFound
      | some _ =>
          if p1 = p2 then .ok { path := [], relationship_found := true }
          else
            match getFamilyTreeRelationships s per1.family_tree_id with
            | .error e => .error e
            | .ok rels =>
                let path := findShortestPath rels p1 p2 maxDepth
                .ok { path := path,
                      relationship_found := decide (0 < path.length) }

/-- The endpoints occurring in a relationship list (a superset of the
adjacency dictionary's values). -/
def nodesOf (rels : List Relationship) : List Nat :=
  rels.flatMap (fun r => [r.from_person_id, r.to_person_id])

/-- A chain of relationship rows forming a graph path from `a` to `b`: each
row is stored and links its step's two nodes the way the relationship map
keys it. -/
inductive Chain (rels : List Relationship) : Nat → Nat → List Relationship → Prop
  | nil (a : Nat) : Chain rels a a []
  | snoc {a b c : Nat} {p : List Relationship} {r : Relationship} :
      Chain rels a b p → r ∈ rels → relMapMatchesB b c r = true →
      Chain rels a c (p ++ [r])

/-- The smaller of two dates, first argument preferred on ties — the
`min(as_of_date, death_date)` of the specification. -/
def dateMinSpec (a b : Date) : Date :=
  if dateLtB b a then b else a

/-- Whole years between a birth date and an end date as the specification
words it: the year difference, minus one exactly when the end month/day
falls before the birth month/day. -/
def wholeYearsSpec (birth endD : Date) : Int :=
  (endD.year : Int) - (birth.year : Int) -
    (if endD.month < birth.month ∨
        (endD.month = birth.month ∧ endD.day < birth.day) then 1 else 0)

/-! ### Age calculation (claim C7) -/

/-- The final-partial-year adjustment of the source equals the
specification's whole-year count. -/
theorem personAgeCore_eq_wholeYears (b : Date) (death : Option Date)
    (asOf : Date) :
    personAgeCore b death asOf =
      wholeYearsSpec b
        (match death with
         | some d => dateMinSpec asOf d
         | none => asOf) := by
  have hcore :
      ∀ e : Date,
        (if e.month < b.month ||
            (e.month == b.month && e.day < b.day) then
          ((e.year : Int) - (b.year : Int)) - 1
        else ((e.year : Int) - (b.year : Int))) = wholeYearsSpec b e := by
    intro e
    by_cases h : e.month < b.month ∨ (e.month = b.month ∧ e.day < b.day)
    · have hb : (e.month < b.month ||
          (e.month == b.month && e.day < b.day)) = true := by
        simp only [Bool.or_eq_true, Bool.and_eq_true, beq_iff_eq,
          decide_eq_true_eq]
        exact h
      rw [wholeYearsSpec, if_pos h]
      simp [hb]
    · have hb : (e.month < b.month ||
          (e.month == b.month && e.day < b.day)) = false := by
        by_contra hcon
        rw [Bool.not_eq_false] at hcon
        exact h (by simpa only [Bool.or_eq_true, Bool.and_eq_true, beq_iff_eq,
          decide_eq_true_eq] using hcon)
      rw [wholeYearsSpec, if_neg h]
      simp [hb]
  cases death with
  | none => simpa [personAgeCore] using hcore asOf
  | some d =>
      simp only [personAgeCore, dateMinSpec]
      exact hcore _

/-- A person used by the age examples: born 2000-06-15, alive. -/
def ageExamplePerson : Person :=
  { id := 1, family_tree_id := 1
    birth_date := some { year := 2000, month := 6, day := 15 }
    death_date := none }

/-- Database used by the age examples. -/
def ageExampleState : DBState :=
  { trees := [1], persons := [ageExamplePerson], rels := [], nextId := 0 }

/-- Claim C7: `calculate_person_age` returns null without a birth date;
otherwise it returns the whole years between the birth date and
`min(as_of_date, death_date)`, subtracting one year exactly when the end
date's month/day falls before the birth month/day; the 2000-06-15 birth date
gives 19 / 20 / 20 at the as-of dates 2020-06-14 / -15 / -16. -/
theorem claim_C7_person_age (s : DBState) (pid : Nat) (asOf : Date)
    (p : Person) (hp : findPerson s pid = some p) :
    (p.birth_date = none → calculatePersonAge s pid asOf = .ok none) ∧
    (∀ b, p.birth_date = some b →
      calculatePersonAge s pid asOf =
        .ok (some (wholeYearsSpec b
          (match p.death_date with
           | some d => dateMinSpec asOf d
           | none => asOf)))) ∧
    calculatePersonAge ageExampleState 1 { year := 2020, month := 6, day := 14 }
      = .ok (some 19) ∧
    calculatePersonAge ageExampleState 1 { year := 2020, month := 6, day := 15 }
      = .ok (some 20) ∧
    calculatePersonAge ageExampleState 1 { year := 2020, month := 6, day := 16 }
      = .ok (some 20) := by
  refine ⟨?_, ?_, by rfl, by rfl, by rfl⟩
  · intro hb
    simp [calculatePersonAge, hp, hb]
  · intro b hb
    simp [calculatePersonAge, hp, hb, personAgeCore_eq_wholeYears]

/-- Witness for `claim_C7_person_age` at the example database. -/
theorem claim_C7_person_age_witness :
    (ageExamplePerson.birth_date = none →
      calculatePersonAge ageExampleState 1
        { year := 2020, month := 6, day := 14 } = .ok none) ∧
    (∀ b, ageExamplePerson.birth_date = some b →
      calculatePersonAge ageExampleState 1
          { year := 2020, month := 6, day := 14 } =
        .ok (some (wholeYearsSpec b
          (match ageExamplePerson.death_date with
           | some d => dateMinSpec { year := 2020, month := 6, day := 14 } d
           | none => { year := 2020, month := 6, day := 14 })))) ∧
    calculatePersonAge ageExampleState 1 { year := 2020, month := 6, day := 14 }
      = .ok (some 19) ∧
    calculatePersonAge ageExampleState 1 { year := 2020, month := 6, day := 15 }
      = .ok (some 20) ∧
    calculatePersonAge ageExampleState 1 { year := 2020, month := 6, day := 16 }
      = .ok (some 20) :=
  claim_C7_person_age ageExampleState 1 { year := 2020, month := 6, day := 14 }
    ageExamplePerson rfl

/-! ### Self-relationships (claim C8) -/

/-- Claim C8: a `create_relationship` call whose two person ids coincide
always fails with the self-relationship error — whatever the category,
subtype or generation difference — and stores nothing; the pydantic layer
additionally records the same-person schema error. -/
theorem claim_C8_self_relationship (s : DBState) (p : RelationshipCreate)
    (h : p.from_person_id = p.to_person_id) :
    createRelationship s p = (.error .selfRelationship, s) ∧
    SchemaError.samePerson ∈ schemaErrors p := by
  constructor
  · simp [createRelationship, validateRelationshipPeople, h]
  · simp [schemaErrors, schemaSamePersonErrors, h.symm]

/-- Payload used by the self-relationship witness. -/
def selfPayload : RelationshipCreate :=
  { from_person_id := 1, to_person_id := 1
    relationship_category := RCategory.partner
    relationship_subtype := some "engaged"
    generation_difference := none
    start_date := none, end_date := none
    is_active := true, notes := none }

/-- Witness for `claim_C8_self_relationship` at a concrete state and
payload. -/
theorem claim_C8_self_relationship_witness :
    createRelationship ageExampleState selfPayload =
      (.error .selfRelationship, ageExampleState) ∧
    SchemaError.samePerson ∈ schemaErrors selfPayload :=
  claim_C8_self_relationship ageExampleState selfPayload rfl

/-! ### Validate-only mode (claim C9) -/

/-- Claim C9: `validate_relationship` leaves the stored relationship set (the
whole database state) unchanged for every input, and its verdict is `valid`
exactly when the person validation and the rule validation succeed and the
duplicate query finds nothing. -/
theorem claim_C9_validate_only (s : DBState) (p : RelationshipCreate) :
    (validateRelationship s p).2 = s ∧
    ((validateRelationship s p).1.valid = true ↔
      (∃ pr, validateRelationshipPeople s p.from_person_id p.to_person_id
          = .ok pr) ∧
      validateRelationshipRules p = .ok () ∧
      findDuplicate s p.from_person_id p.to_person_id
        p.relationship_category = none) := by
  refine ⟨rfl, ?_⟩
  simp only [validateRelationship]
  cases hpe : validateRelationshipPeople s p.from_person_id p.to_person_id with
  | error e => simp [hpe]
  | ok pr =>
      cases hr : validateRelationshipRules p with
      | error e => simp [hr]
      | ok u =>
          cases hd : findDuplicate s p.from_person_id p.to_person_id
              p.relationship_category with
          | none => simp [hd, hr]
          | some d => simp [hd]

/-! ### Generation-difference rule (claim C2) -/

/-- A candidate passes the full relationship validation: the pydantic field
validation records no error and the service rule check succeeds. -/
def candidateValid (p : RelationshipCreate) : Prop :=
  schemaErrors p = [] ∧ validateRelationshipRules p = .ok ()

/-- The pydantic error kinds that concern the generation-difference rule. -/
def isGenSchemaError : SchemaError → Bool
  | .genOutOfBounds => true
  | .genRequired => true
  | .genNotAllowed => true
  | _ => false

/-- The service error kinds that concern the generation-difference rule. -/
def isGenServiceError : ServiceError → Bool
  | .genRequiredForFamilyLine => true
  | .genMustBeUnit => true
  | .genMustBeZero => true
  | _ => false

/-- The family_line candidate with `generation_difference = 0` that refutes
claim C2 as stated. -/
def genZeroPayload : RelationshipCreate :=
  { from_person_id := 1, to_person_id := 2
    relationship_category := RCategory.family_line
    relationship_subtype := none
    generation_difference := some 0
    start_date := none, end_date := none
    is_active := true, notes := none }

/-- Counterexample to claim C2 as stated: a family_line candidate with
generation difference 0 — which the claim says is rejected with a
generation-rule violation — is in fact rejected by the service subtype
check, and no layer reports a generation-rule violation for it. -/
theorem claim_C2_counterexample :
    genZeroPayload.relationship_category = RCategory.family_line ∧
    genZeroPayload.generation_difference = some 0 ∧
    schemaErrors genZeroPayload = [] ∧
    validateRelationshipRules genZeroPayload =
      .error .invalidSubtype ∧
    isGenServiceError .invalidSubtype = false := by
  refine ⟨rfl, rfl, rfl, rfl, rfl⟩

/-- Claim C2 (amended): a family_line candidate with no generation
difference is rejected with the generation-required violation; one with a
present generation difference outside {−1, +1} never passes validation, and
receives a generation-bounds violation when the value lies outside [−1, 1]
(the value 0 is instead rejected by the subtype check, which the service
runs first); any other category with a non-null generation difference is
rejected with a generation-rule violation; and every candidate that passes
the full validation has generation difference in {−1, +1} when its category
is family_line and null otherwise. -/
theorem claim_C2_generation_rule :
    (∀ p : RelationshipCreate,
      p.relationship_category = RCategory.family_line →
      p.generation_difference = none →
      SchemaError.genRequired ∈ schemaErrors p) ∧
    (∀ (p : RelationshipCreate) (g : Int),
      p.relationship_category = RCategory.family_line →
      p.generation_difference = some g → g ≠ -1 → g ≠ 1 →
      ¬ candidateValid p ∧
        ((g < -1 ∨ 1 < g) → SchemaError.genOutOfBounds ∈ schemaErrors p)) ∧
    (∀ p : RelationshipCreate,
      p.relationship_category ≠ RCategory.family_line →
      p.generation_difference ≠ none →
      SchemaError.genOutOfBounds ∈ schemaErrors p ∨
        SchemaError.genNotAllowed ∈ schemaErrors p) ∧
    (∀ p : RelationshipCreate, candidateValid p →
      (p.relationship_category = RCategory.family_line →
        p.generation_difference = some (-1) ∨
          p.generation_difference = some 1) ∧
      (p.relationship_category ≠ RCategory.family_line →
        p.generation_difference = none)) := by
  refine ⟨?_, ?_, ?_, ?_⟩
  · intro p hcat hgen
    simp [schemaErrors, schemaGenErrors, hcat, hgen]
  · intro p g hcat hgen hm1 hp1
    constructor
    · rintro ⟨-, hr⟩
      simp only [validateRelationshipRules, hcat, hgen] at hr
      split at hr
      · exact absurd hr (by simp)
      · split at hr
        · exact absurd hr (by simp)
        · rename_i habs
          rw [not_not] at habs
          rcases Int.natAbs_eq_iff.mp habs with h | h
          · exact hp1 (by exact_mod_cast h)
          · exact hm1 (by exact_mod_cast h)
    · intro hbounds
      have hb : (decide (g < -1) || decide (1 < g)) = true := by
        rcases hbounds with h | h <;> simp [h]
      simp [schemaErrors, schemaGenErrors, hgen, hb]
  · intro p hcat hgen
    rcases hg : p.generation_difference with - | g
    · exact absurd hg hgen
    · by_cases hbounds : g < -1 ∨ 1 < g
      · left
        have hb : (decide (g < -1) || decide (1 < g)) = true := by
          rcases hbounds with h | h <;> simp [h]
        simp [schemaErrors, schemaGenErrors, hg, hb]
      · right
        have hb : (decide (g < -1) || decide (1 < g)) = false := by
          push_neg at hbounds
          simp [Int.not_lt.mpr hbounds.1, Int.not_lt.mpr hbounds.2]
        simp [schemaErrors, schemaGenErrors, hg, hb, hcat]
  · rintro p ⟨hs, hr⟩
    have hs' : schemaGenErrors p ++
        (schemaSubtypeErrors p ++ schemaSamePersonErrors p) = [] := by
      simpa [schemaErrors] using hs
    have hgenNil : schemaGenErrors p = [] :=
      (List.append_eq_nil.mp hs').1
    constructor
    · intro hcat
      rcases hg : p.generation_difference with _ | g
      · simp only [schemaGenErrors, hg, if_pos hcat] at hgenNil
        exact absurd hgenNil (by simp)
      · simp only [validateRelationshipRules, hcat, hg] at hr
        split at hr
        · exact absurd hr (by simp)
        · split at hr
          · exact absurd hr (by simp)
          · rename_i habs
            rw [not_not] at habs
            rcases Int.natAbs_eq_iff.mp habs with h | h
            · exact Or.inr (congrArg some (by exact_mod_cast h))
            · exact Or.inl (congrArg some (by exact_mod_cast h))
    · intro hcat
      rcases hg : p.generation_difference with _ | g
      · rfl
      · exfalso
        simp only [schemaGenErrors, hg] at hgenNil
        split at hgenNil
        · exact absurd hgenNil (by simp)
        · exact absurd hgenNil (by simp)

/-- Payload used by the C2 witness: family_line with no generation
difference. -/
def genNonePayload : RelationshipCreate :=
  { from_person_id := 1, to_person_id := 2
    relationship_category := RCategory.family_line
    relationship_subtype := some "biological"
    generation_difference := none
    start_date := none, end_date := none
    is_active := true, notes := none }

/-- Witness for `claim_C2_generation_rule`: the generation-required
violation fires on a concrete family_line candidate without a generation
difference. -/
theorem claim_C2_generation_rule_witness :
    SchemaError.genRequired ∈ schemaErrors genNonePayload :=
  claim_C2_generation_rule.1 genNonePayload rfl rfl

/-! ### Anatomy of `create_relationship` -/

/-- Complete case analysis of `createRelationship`: it either fails with the
state unchanged, or all three validations passed and the result is the
inserted row with one of the three possible successor states. -/
theorem createRelationship_cases (s : DBState) (p : RelationshipCreate) :
    (∃ e, createRelationship s p = (.error e, s)) ∨
    ((∃ pr, validateRelationshipPeople s p.from_person_id p.to_person_id
        = .ok pr) ∧
      findDuplicate s p.from_person_id p.to_person_id
        p.relationship_category = none ∧
      validateRelationshipRules p = .ok () ∧
      ((symmetricCat p.relationship_category = false ∧
          createRelationship s p =
            (.ok (rowOfPayload p s.nextId), afterInsert s p)) ∨
        (symmetricCat p.relationship_category = true ∧
          relationshipExists (afterInsert s p) p.to_person_id
            p.from_person_id p.relationship_category = true ∧
          createRelationship s p =
            (.ok (rowOfPayload p s.nextId), afterInsert s p)) ∨
        (symmetricCat p.relationship_category = true ∧
          relationshipExists (afterInsert s p) p.to_person_id
            p.from_person_id p.relationship_category = false ∧
          createRelationship s p =
            (.ok (rowOfPayload p s.nextId), afterInsertMirror s p)))) := by
  cases hv : validateRelationshipPeople s p.from_person_id p.to_person_id with
  | error e => exact Or.inl ⟨e, by simp [createRelationship, hv]⟩
  | ok pr =>
      cases hdup : (findDuplicate s p.from_person_id p.to_person_id
          p.relationship_category).isSome
      · cases hr : validateRelationshipRules p with
        | error e =>
            exact Or.inl ⟨e, by simp [createRelationship, hv, hdup, hr]⟩
        | ok u =>
            have hdn : findDuplicate s p.from_person_id p.to_person_id
                p.relationship_category = none := by
              rcases hfd : findDuplicate s p.from_person_id p.to_person_id
                  p.relationship_category with _ | d
              · rfl
              · rw [hfd] at hdup
                simp at hdup
            refine Or.inr ⟨⟨pr, rfl⟩, hdn, rfl, ?_⟩
            cases hsym : symmetricCat p.relationship_category
            · exact Or.inl ⟨rfl,
                by simp [createRelationship, hv, hdup, hr, hsym]⟩
            · cases hrec : relationshipExists (afterInsert s p)
                  p.to_person_id p.from_person_id p.relationship_category
              · exact Or.inr (Or.inr ⟨rfl, rfl,
                  by simp [createRelationship, hv, hdup, hr, hsym, hrec]⟩)
              · exact Or.inr (Or.inl ⟨rfl, rfl,
                  by simp [createRelationship, hv, hdup, hr, hsym, hrec]⟩)
      · exact Or.inl ⟨.duplicateRelationship,
          by simp [createRelationship, hv, hdup]⟩

/-- A successful create produced the payload's row, passed every check, kept
the people and tree tables, kept every old relationship row, contains the
new row, and (for partner/sibling payloads) contains a reciprocal row. -/
theorem createRelationship_ok_spec (s : DBState) (p : RelationshipCreate)
    (r : Relationship) (s' : DBState)
    (h : createRelationship s p = (.ok r, s')) :
    r = rowOfPayload p s.nextId ∧
    s'.trees = s.trees ∧ s'.persons = s.persons ∧
    (∃ pr, validateRelationshipPeople s p.from_person_id p.to_person_id
      = .ok pr) ∧
    findDuplicate s p.from_person_id p.to_person_id
      p.relationship_category = none ∧
    validateRelationshipRules p = .ok () ∧
    (∀ x ∈ s.rels, x ∈ s'.rels) ∧ r ∈ s'.rels ∧
    (symmetricCat p.relationship_category = true →
      ∃ m ∈ s'.rels, m.from_person_id = p.to_person_id ∧
        m.to_person_id = p.from_person_id ∧
        m.relationship_category = p.relationship_category) := by
  rcases createRelationship_cases s p with ⟨e, he⟩ | ⟨hv, hdup, hr, hcase⟩
  · rw [he] at h
    exact absurd h (by simp)
  · have hmain : ∀ s2 : DBState,
        createRelationship s p = (.ok (rowOfPayload p s.nextId), s2) →
        r = rowOfPayload p s.nextId ∧ s' = s2 := by
      intro s2 h2
      rw [h2] at h
      exact ⟨(Except.ok.inj (congrArg Prod.fst h)).symm,
        (congrArg Prod.snd h).symm⟩
    rcases hcase with ⟨hsym, heq⟩ | ⟨hsym, hrec, heq⟩ | ⟨hsym, hrec, heq⟩
    · obtain ⟨rfl, rfl⟩ := hmain _ heq
      refine ⟨rfl, rfl, rfl, hv, hdup, hr,
        fun x hx => List.mem_append_left _ hx,
        List.mem_append_right _ (by simp), fun hcon => ?_⟩
      rw [hsym] at hcon
      exact absurd hcon (by simp)
    · obtain ⟨rfl, rfl⟩ := hmain _ heq
      refine ⟨rfl, rfl, rfl, hv, hdup, hr,
        fun x hx => List.mem_append_left _ hx,
        List.mem_append_right _ (by simp), fun _ => ?_⟩
      unfold relationshipExists at hrec
      rw [Option.isSome_iff_exists] at hrec
      obtain ⟨m, hm⟩ := hrec
      have hmem : m ∈ (afterInsert s p).rels := List.mem_of_find?_eq_some hm
      have hpred := List.find?_some hm
      simp only [Bool.and_eq_true, beq_iff_eq] at hpred
      exact ⟨m, hmem, hpred.1.1, hpred.1.2, hpred.2⟩
    · obtain ⟨rfl, rfl⟩ := hmain _ heq
      exact ⟨rfl, rfl, rfl, hv, hdup, hr,
        fun x hx => List.mem_append_left _ (List.mem_append_left _ hx),
        List.mem_append_left _ (List.mem_append_right _ (by simp)),
        fun _ => ⟨mirrorOf (rowOfPayload p s.nextId) (s.nextId + 1),
          List.mem_append_right _ (by simp), rfl, rfl, rfl⟩⟩

/-! ### Duplicate detection (claim C3) -/

/-- Two distinct same-tree people used by the duplicate counterexample. -/
def c3State : DBState :=
  { trees := [1]
    persons := [{ id := 1, family_tree_id := 1, birth_date := none, death_date := none },
      { id := 2, family_tree_id := 1, birth_date := none, death_date := none }]
    rels := [], nextId := 10 }

/-- First payload of the counterexample: extended_family edge 2 → 1. -/
def c3P1 : RelationshipCreate :=
  { from_person_id := 2, to_person_id := 1
    relationship_category := RCategory.extended_family
    relationship_subtype := some "cousin"
    generation_difference := none
    start_date := none, end_date := none
    is_active := true, notes := none }

/-- Second payload of the counterexample: the same pair, same category, in
the opposite direction 1 → 2. -/
def c3P2 : RelationshipCreate :=
  { from_person_id := 1, to_person_id := 2
    relationship_category := RCategory.extended_family
    relationship_subtype := some "cousin"
    generation_difference := none
    start_date := none, end_date := none
    is_active := true, notes := none }

/-- Counterexample to claim C3 as stated: with a stored extended_family
relationship 2 → 1, creating the same-category relationship 1 → 2 — the
same pair in the opposite direction — succeeds instead of failing with the
duplicate error, because `_check_duplicate_relationship` only queries the
exact `(from, to, category)` direction. -/
theorem claim_C3_counterexample :
    (createRelationship c3State c3P1).1 = .ok (rowOfPayload c3P1 10) ∧
    (createRelationship (createRelationship c3State c3P1).2 c3P2).1
      = .ok (rowOfPayload c3P2 11) ∧
    (rowOfPayload c3P1 10).from_person_id = c3P2.to_person_id ∧
    (rowOfPayload c3P1 10).to_person_id = c3P2.from_person_id ∧
    (rowOfPayload c3P1 10).relationship_category
      = c3P2.relationship_category := by
  exact ⟨rfl, rfl, rfl, rfl, rfl⟩

/-- Claim C3 (amended): the duplicate check is same-direction only — for
distinct same-tree persons, `create_relationship` fails with the duplicate
error and inserts nothing exactly when a relationship with the same
`from`, `to` and category already exists; in particular the same call twice
in a row fails with the duplicate error on the second call. -/
theorem claim_C3_duplicate_rule :
    (∀ (s : DBState) (p : RelationshipCreate),
      (∃ pr, validateRelationshipPeople s p.from_person_id p.to_person_id
        = .ok pr) →
      (∃ r ∈ s.rels, r.from_person_id = p.from_person_id ∧
        r.to_person_id = p.to_person_id ∧
        r.relationship_category = p.relationship_category) →
      createRelationship s p = (.error .duplicateRelationship, s)) ∧
    (∀ (s : DBState) (p : RelationshipCreate) (r : Relationship)
        (s' : DBState),
      createRelationship s p = (.ok r, s') →
      createRelationship s' p = (.error .duplicateRelationship, s')) := by
  have hdupOf : ∀ (s : DBState) (p : RelationshipCreate),
      (∃ r ∈ s.rels, r.from_person_id = p.from_person_id ∧
        r.to_person_id = p.to_person_id ∧
        r.relationship_category = p.relationship_category) →
      (findDuplicate s p.from_person_id p.to_person_id
        p.relationship_category).isSome = true := by
    rintro s p ⟨r, hr, h1, h2, h3⟩
    unfold findDuplicate
    rw [List.find?_isSome]
    exact ⟨r, hr, by simp [h1, h2, h3]⟩
  have main : ∀ (s : DBState) (p : RelationshipCreate),
      (∃ pr, validateRelationshipPeople s p.from_person_id p.to_person_id
        = .ok pr) →
      (∃ r ∈ s.rels, r.from_person_id = p.from_person_id ∧
        r.to_person_id = p.to_person_id ∧
        r.relationship_category = p.relationship_category) →
      createRelationship s p = (.error .duplicateRelationship, s) := by
    rintro s p ⟨pr, hv⟩ hex
    unfold createRelationship
    rw [hv, if_pos (hdupOf s p hex)]
  refine ⟨main, ?_⟩
  intro s p r s' h
  obtain ⟨hrow, -, hpers, ⟨pr, hv⟩, -, -, -, hmem, -⟩ :=
    createRelationship_ok_spec s p r s' h
  have hv' : validateRelationshipPeople s' p.from_person_id p.to_person_id
      = .ok pr := by
    unfold validateRelationshipPeople findPerson at hv ⊢
    rw [hpers]
    exact hv
  exact main s' p ⟨pr, hv'⟩ ⟨r, hmem, by rw [hrow]; exact ⟨rfl, rfl, rfl⟩⟩

/-- Witness for `claim_C3_duplicate_rule`: the concrete repeated call fails
with the duplicate error the second time. -/
theorem claim_C3_duplicate_rule_witness :
    createRelationship (createRelationship c3State c3P1).2 c3P1 =
      (.error .duplicateRelationship, (createRelationship c3State c3P1).2) :=
  claim_C3_duplicate_rule.2 c3State c3P1 (rowOfPayload c3P1 10)
    (createRelationship c3State c3P1).2 rfl

/-! ### Grandparent inference (claim C5) -/

/-- Three-generation chain: 1 is a parent of 2, 2 is a parent of 3. -/
def chainState : DBState :=
  { trees := [1]
    persons := [{ id := 1, family_tree_id := 1, birth_date := none, death_date := none },
      { id := 2, family_tree_id := 1, birth_date := none, death_date := none },
      { id := 3, family_tree_id := 1, birth_date := none, death_date := none }]
    rels := [{ id := 10, from_person_id := 1, to_person_id := 2
               relationship_category := RCategory.family_line
               relationship_subtype := some "biological_parent"
               generation_difference := some (-1)
               start_date := none, end_date := none
               is_active := true, notes := none },
             { id := 11, from_person_id := 2, to_person_id := 3
               relationship_category := RCategory.family_line
               relationship_subtype := some "biological_parent"
               generation_difference := some (-1)
               start_date := none, end_date := none
               is_active := true, notes := none }]
    nextId := 12 }

/-- Claim C5 fails on the code: on the chain 1 → 2 → 3 of two
parent-to-child edges, `infer_missing_relationships` proposes the
self-pairs (2, 2) and (3, 3) — because `grandparents =
parent_child_map[parent_id]` looks up the parent's own children under a
trivially true `parent_id in parent_child_map` guard — and never the
claimed pair (1, 3). -/
theorem claim_C5_grandparent_inference :
    inferMissingRelationships chainState 1 =
      .ok [{ type := "grandparent", person1_id := 2, person2_id := 2
             confidence := "high", reason := "Parent-child chain through 1" },
           { type := "grandparent", person1_id := 3, person2_id := 3
             confidence := "high", reason := "Parent-child chain through 2" }] ∧
    (∀ pr ∈ ([{ type := "grandparent", person1_id := 2, person2_id := 2
                confidence := "high",
                reason := "Parent-child chain through 1" },
              { type := "grandparent", person1_id := 3, person2_id := 3
                confidence := "high",
                reason := "Parent-child chain through 2" }] :
        List InferredRelationship),
      ¬(pr.person1_id = 1 ∧ pr.person2_id = 3)) := by
  exact ⟨rfl, by decide⟩

/-! ### Sibling inference (claim C6) -/

/-- Any two distinct members of a child list occur together, in one of the
two orders, among its enumerated pairs. -/
theorem mem_siblingPairs_of_mem (cs : List Nat) (x y : Nat)
    (hx : x ∈ cs) (hy : y ∈ cs) (hne : x ≠ y) :
    ∃ ab ∈ siblingPairs cs,
      (ab.1 = x ∧ ab.2 = y) ∨ (ab.1 = y ∧ ab.2 = x) := by
  induction cs with
  | nil => cases hx
  | cons c rest ih =>
      rcases List.mem_cons.mp hx with rfl | hx'
      · have hy' : y ∈ rest := by
          rcases List.mem_cons.mp hy with rfl | hy'
          · exact absurd rfl hne
          · exact hy'
        exact ⟨(x, y), List.mem_append_left _
          (List.mem_map_of_mem _ hy'), Or.inl ⟨rfl, rfl⟩⟩
      · rcases List.mem_cons.mp hy with rfl | hy'
        · exact ⟨(y, x), List.mem_append_left _
            (List.mem_map_of_mem _ hx'), Or.inr ⟨rfl, rfl⟩⟩
        · obtain ⟨ab, hab, hor⟩ := ih hx' hy'
          exact ⟨ab, List.mem_append_right _ hab, hor⟩

/-- Every proposal of the sibling pass is sibling-typed and its ordered pair
had no stored sibling row in that direction. -/
theorem inferSiblings_sound (s : DBState) (m : List (Nat × List Nat))
    (pr : InferredRelationship) (hpr : pr ∈ inferSiblings s m) :
    pr.type = "sibling" ∧
    relationshipExists s pr.person1_id pr.person2_id
      RCategory.sibling = false := by
  simp only [inferSiblings, List.mem_flatMap, List.mem_filterMap] at hpr
  obtain ⟨pc, hpc, cd, hcd, heq⟩ := hpr
  split at heq
  · exact absurd heq (by simp)
  · rename_i hfalse
    obtain rfl := Option.some.inj heq
    exact ⟨rfl, by simpa using hfalse⟩

/-- Every proposal of the grandparent pass is grandparent-typed. -/
theorem inferGrandparents_typed (s : DBState) (m : List (Nat × List Nat))
    (pr : InferredRelationship) (hpr : pr ∈ inferGrandparents s m) :
    pr.type = "grandparent" := by
  simp only [inferGrandparents, List.mem_flatMap] at hpr
  obtain ⟨pc, hpc, hmem⟩ := hpr
  rcases hf : m.find? (fun kv => kv.1 == pc.1) with _ | kv
  · rw [hf] at hmem
    cases hmem
  · rw [hf] at hmem
    simp only [List.mem_flatMap, List.mem_filterMap] at hmem
    obtain ⟨g, hg, c, hc, heq⟩ := hmem
    split at heq
    · exact absurd heq (by simp)
    · obtain rfl := Option.some.inj heq
      rfl

/-- A successful `infer_missing_relationships` call returns exactly the
sibling pass followed by the grandparent pass over the tree's parent/child
map. -/
theorem inferMissing_ok (s : DBState) (tid : Nat)
    (res : List InferredRelationship)
    (h : inferMissingRelationships s tid = .ok res) :
    res = inferSiblings s (parentChildMap (s.rels.filter (inTree s tid))) ++
      inferGrandparents s
        (parentChildMap (s.rels.filter (inTree s tid))) := by
  unfold inferMissingRelationships getFamilyTreeRelationships at h
  cases hft : familyTreeExists s tid
  · rw [hft] at h
    simp at h
  · rw [hft] at h
    simp at h
    exact h.symm

/-- A stored row with matching endpoints and category makes
`_relationship_exists` true. -/
theorem relationshipExists_of_mem (s : DBState) (x : Relationship)
    (hx : x ∈ s.rels) (a b : Nat) (c : RCategory)
    (hfrom : x.from_person_id = a) (hto : x.to_person_id = b)
    (hcat : x.relationship_category = c) :
    relationshipExists s a b c = true := by
  unfold relationshipExists findDuplicate
  rw [List.find?_isSome]
  exact ⟨x, hx, by simp [hfrom, hto, hcat]⟩

/-- Claim C6: for a parent with two distinct recorded children not yet
connected by a sibling row in either direction, `infer_missing_relationships`
proposes the pair as siblings with high confidence and a reason citing the
shared parent; and once a sibling relationship between the pair has been
created (with its reciprocal), the pair is no longer proposed. -/
theorem claim_C6_sibling_inference :
    (∀ (s : DBState) (tid : Nat) (rels : List Relationship)
        (parent : Nat) (cs : List Nat) (x y : Nat),
      getFamilyTreeRelationships s tid = .ok rels →
      (parent, cs) ∈ parentChildMap rels →
      x ∈ cs → y ∈ cs → x ≠ y →
      relationshipExists s x y RCategory.sibling = false →
      relationshipExists s y x RCategory.sibling = false →
      ∃ res, inferMissingRelationships s tid = .ok res ∧
        ∃ pr ∈ res, pr.type = "sibling" ∧ pr.confidence = "high" ∧
          pr.reason = siblingReason parent ∧
          ((pr.person1_id = x ∧ pr.person2_id = y) ∨
            (pr.person1_id = y ∧ pr.person2_id = x))) ∧
    (∀ (s : DBState) (p : RelationshipCreate) (r : Relationship)
        (s' : DBState) (tid : Nat) (res : List InferredRelationship),
      p.relationship_category = RCategory.sibling →
      createRelationship s p = (.ok r, s') →
      inferMissingRelationships s' tid = .ok res →
      ∀ pr ∈ res, pr.type = "sibling" →
        ¬((pr.person1_id = p.from_person_id ∧
            pr.person2_id = p.to_person_id) ∨
          (pr.person1_id = p.to_person_id ∧
            pr.person2_id = p.from_person_id))) := by
  constructor
  · intro s tid rels parent cs x y hrels hpc hx hy hne hxy hyx
    refine ⟨inferSiblings s (parentChildMap rels) ++
      inferGrandparents s (parentChildMap rels), ?_, ?_⟩
    · unfold inferMissingRelationships
      rw [hrels]
    · obtain ⟨ab, hab, hor⟩ := mem_siblingPairs_of_mem cs x y hx hy hne
      have hex : relationshipExists s ab.1 ab.2 RCategory.sibling = false := by
        rcases hor with ⟨h1, h2⟩ | ⟨h1, h2⟩
        · rw [h1, h2]; exact hxy
        · rw [h1, h2]; exact hyx
      refine ⟨{ type := "sibling", person1_id := ab.1, person2_id := ab.2
                confidence := "high", reason := siblingReason parent },
        List.mem_append_left _ ?_, rfl, rfl, rfl, ?_⟩
      · simp only [inferSiblings, List.mem_flatMap, List.mem_filterMap]
        exact ⟨(parent, cs), hpc, ab, hab, by rw [hex]; simp⟩
      · rcases hor with ⟨h1, h2⟩ | ⟨h1, h2⟩
        · exact Or.inl ⟨h1, h2⟩
        · exact Or.inr ⟨h1, h2⟩
  · intro s p r s' tid res hcat hcreate hinfer pr hpr htype
    obtain ⟨hrow, -, -, -, -, -, -, hmem, hmirror⟩ :=
      createRelationship_ok_spec s p r s' hcreate
    obtain ⟨m, hm, hmf, hmt, hmc⟩ := hmirror (by rw [hcat]; rfl)
    have hfwd : relationshipExists s' p.from_person_id p.to_person_id
        RCategory.sibling = true :=
      relationshipExists_of_mem s' r hmem _ _ _
        (by rw [hrow]; rfl) (by rw [hrow]; rfl) (by rw [hrow]; exact hcat)
    have hbwd : relationshipExists s' p.to_person_id p.from_person_id
        RCategory.sibling = true :=
      relationshipExists_of_mem s' m hm _ _ _ hmf hmt (by rw [hmc]; exact hcat)
    rw [inferMissing_ok s' tid res hinfer] at hpr
    rcases List.mem_append.mp hpr with hsib | hgrand
    · obtain ⟨-, hnone⟩ := inferSiblings_sound s' _ pr hsib
      rintro (⟨h1, h2⟩ | ⟨h1, h2⟩)
      · rw [h1, h2] at hnone
        rw [hfwd] at hnone
        cases hnone
      · rw [h1, h2] at hnone
        rw [hbwd] at hnone
        cases hnone
    · have := inferGrandparents_typed s' _ pr hgrand
      rw [htype] at this
      exact absurd this (by simp)

/-- Parent 1 with children 2 and 3 and no sibling rows. -/
def twoChildState : DBState :=
  { trees := [1]
    persons := [{ id := 1, family_tree_id := 1, birth_date := none, death_date := none },
      { id := 2, family_tree_id := 1, birth_date := none, death_date := none },
      { id := 3, family_tree_id := 1, birth_date := none, death_date := none }]
    rels := [{ id := 10, from_person_id := 1, to_person_id := 2
               relationship_category := RCategory.family_line
               relationship_subtype := some "biological_parent"
               generation_difference := some (-1)
               start_date := none, end_date := none
               is_active := true, notes := none },
             { id := 11, from_person_id := 1, to_person_id := 3
               relationship_category := RCategory.family_line
               relationship_subtype := some "biological_parent"
               generation_difference := some (-1)
               start_date := none, end_date := none
               is_active := true, notes := none }]
    nextId := 12 }

/-- Witness for `claim_C6_sibling_inference`: children 2 and 3 of parent 1
are proposed as siblings in the concrete two-child tree. -/
theorem claim_C6_sibling_inference_witness :
    ∃ res, inferMissingRelationships twoChildState 1 = .ok res ∧
      ∃ pr ∈ res, pr.type = "sibling" ∧ pr.confidence = "high" ∧
        pr.reason = siblingReason 1 ∧
        ((pr.person1_id = 2 ∧ pr.person2_id = 3) ∨
          (pr.person1_id = 3 ∧ pr.person2_id = 2)) :=
  claim_C6_sibling_inference.1 twoChildState 1
    (twoChildState.rels.filter (inTree twoChildState 1)) 1 [2, 3] 2 3
    rfl (by decide) (by decide) (by decide) (by decide) rfl rfl

/-! ### Reciprocity of partner/sibling edges (claim C1) -/

/-- At most one stored row per `(from, to, category)` key — the invariant the
duplicate check maintains and `scalar_one_or_none` relies on. -/
def KeyUnique (s : DBState) : Prop :=
  ∀ r ∈ s.rels, ∀ m ∈ s.rels,
    r.from_person_id = m.from_person_id → r.to_person_id = m.to_person_id →
    r.relationship_category = m.relationship_category → r = m

/-- Primary keys are unique. -/
def IdUnique (s : DBState) : Prop :=
  ∀ r ∈ s.rels, ∀ m ∈ s.rels, r.id = m.id → r = m

/-- Every stored id is below the id generator. -/
def IdBound (s : DBState) : Prop :=
  ∀ r ∈ s.rels, r.id < s.nextId

/-- Every partner/sibling row has a stored reciprocal row. -/
def Mirrored (s : DBState) : Prop :=
  ∀ r ∈ s.rels, symmetricCat r.relationship_category = true →
    ∃ m ∈ s.rels, m.from_person_id = r.to_person_id ∧
      m.to_person_id = r.from_person_id ∧
      m.relationship_category = r.relationship_category

/-- The database invariants of the relationship table. -/
structure DBInv (s : DBState) : Prop where
  keyUnique : KeyUnique s
  idUnique : IdUnique s
  idBound : IdBound s
  mirrored : Mirrored s

/-- Membership in a `deleteRow` result. -/
theorem mem_deleteRow (l : List Relationship) (i : Nat) (x : Relationship) :
    x ∈ deleteRow l i ↔ x ∈ l ∧ x.id ≠ i := by
  unfold deleteRow
  rw [List.mem_filter]
  simp

/-- The duplicate query finds nothing exactly when no stored row carries the
key. -/
theorem findDuplicate_eq_none (s : DBState) (a b : Nat) (c : RCategory) :
    findDuplicate s a b c = none ↔
      ∀ x ∈ s.rels, ¬(x.from_person_id = a ∧ x.to_person_id = b ∧
        x.relationship_category = c) := by
  unfold findDuplicate
  rw [List.find?_eq_none]
  constructor
  · intro h x hx hc
    have hb := h x hx
    simp only [Bool.and_eq_true, beq_iff_eq] at hb
    exact hb ⟨⟨hc.1, hc.2.1⟩, hc.2.2⟩
  · intro h x hx
    simp only [Bool.and_eq_true, beq_iff_eq]
    rintro ⟨⟨h1, h2⟩, h3⟩
    exact h x hx ⟨h1, h2, h3⟩

/-- A successful person validation implies the two ids differ. -/
theorem validatePeople_ok_ne (s : DBState) (a b : Nat) (pr : Person × Person)
    (h : validateRelationshipPeople s a b = .ok pr) : a ≠ b := by
  intro hab
  unfold validateRelationshipPeople at h
  rw [if_pos hab] at h
  cases h

/-- What a `getRelationship` hit means. -/
theorem getRelationship_some (s : DBState) (rid : Nat) (r : Relationship)
    (h : getRelationship s rid = some r) : r ∈ s.rels ∧ r.id = rid := by
  unfold getRelationship at h
  refine ⟨List.mem_of_find?_eq_some h, ?_⟩
  have := List.find?_some h
  simpa using this

/-- Complete case analysis of `deleteRelationship`. -/
theorem deleteRelationship_cases (s : DBState) (rid : Nat) :
    (getRelationship s rid = none ∧
      deleteRelationship s rid = (.error .relationshipNotFound, s)) ∨
    (∃ r, getRelationship s rid = some r ∧
      ((symmetricCat r.relationship_category = false ∧
        deleteRelationship s rid =
          (.ok (), { s with rels := deleteRow s.rels rid })) ∨
      (symmetricCat r.relationship_category = true ∧
        (∃ m0, s.rels.find? (fun x =>
            x.from_person_id == r.to_person_id &&
              x.to_person_id == r.from_person_id &&
              x.relationship_category == r.relationship_category) = some m0 ∧
          deleteRelationship s rid =
            (.ok (), { s with
              rels := deleteRow (deleteRow s.rels m0.id) rid }))) ∨
      (symmetricCat r.relationship_category = true ∧
        s.rels.find? (fun x =>
            x.from_person_id == r.to_person_id &&
              x.to_person_id == r.from_person_id &&
              x.relationship_category == r.relationship_category) = none ∧
        deleteRelationship s rid =
          (.ok (), { s with rels := deleteRow s.rels rid })))) := by
  cases hr : getRelationship s rid with
  | none => exact Or.inl ⟨rfl, by simp [deleteRelationship, hr]⟩
  | some r =>
      refine Or.inr ⟨r, rfl, ?_⟩
      cases hsym : symmetricCat r.relationship_category
      · exact Or.inl ⟨rfl, by simp [deleteRelationship, hr, hsym]⟩
      · cases hm : s.rels.find? (fun x =>
            x.from_person_id == r.to_person_id &&
              x.to_person_id == r.from_person_id &&
              x.relationship_category == r.relationship_category) with
        | none =>
            exact Or.inr (Or.inr ⟨rfl, rfl,
              by simp [deleteRelationship, hr, hsym, hm]⟩)
        | some m0 =>
            exact Or.inr (Or.inl ⟨rfl, m0, rfl,
              by simp [deleteRelationship, hr, hsym, hm]⟩)

/-- Membership in the single-insert successor state. -/
theorem mem_afterInsert (s : DBState) (p : RelationshipCreate)
    (x : Relationship) :
    x ∈ (afterInsert s p).rels ↔
      x ∈ s.rels ∨ x = rowOfPayload p s.nextId := by
  simp [afterInsert]

/-- Membership in the insert-plus-mirror successor state. -/
theorem mem_afterInsertMirror (s : DBState) (p : RelationshipCreate)
    (x : Relationship) :
    x ∈ (afterInsertMirror s p).rels ↔
      x ∈ s.rels ∨ x = rowOfPayload p s.nextId ∨
        x = mirrorOf (rowOfPayload p s.nextId) (s.nextId + 1) := by
  simp [afterInsertMirror, or_assoc]

/-- In a mirrored key-unique state in which the payload's key is free, no
stored row carries the reversed key either, for a symmetric payload. -/
theorem no_reverse_row (s : DBState) (p : RelationshipCreate)
    (hinv : DBInv s)
    (hdup : findDuplicate s p.from_person_id p.to_person_id
      p.relationship_category = none)
    (hsym : symmetricCat p.relationship_category = true) :
    ∀ x ∈ s.rels, ¬(x.from_person_id = p.to_person_id ∧
      x.to_person_id = p.from_person_id ∧
      x.relationship_category = p.relationship_category) := by
  rintro x hx ⟨h1, h2, h3⟩
  have hxsym : symmetricCat x.relationship_category = true := by
    rw [h3]; exact hsym
  obtain ⟨m2, hm2, h2f, h2t, h2c⟩ := hinv.mirrored x hx hxsym
  exact (findDuplicate_eq_none s _ _ _).mp hdup m2 hm2
    ⟨by rw [h2f, h2], by rw [h2t, h1], by rw [h2c, h3]⟩

/-- Under the invariants, the reciprocal-existence probe after inserting a
symmetric payload's row is negative, so the mirror row is always created. -/
theorem reverse_probe_false (s : DBState) (p : RelationshipCreate)
    (pr : Person × Person) (hinv : DBInv s)
    (hv : validateRelationshipPeople s p.from_person_id p.to_person_id
      = .ok pr)
    (hdup : findDuplicate s p.from_person_id p.to_person_id
      p.relationship_category = none)
    (hsym : symmetricCat p.relationship_category = true) :
    relationshipExists (afterInsert s p) p.to_person_id p.from_person_id
      p.relationship_category = false := by
  have hne := validatePeople_ok_ne s _ _ pr hv
  have hnd : findDuplicate (afterInsert s p) p.to_person_id p.from_person_id
      p.relationship_category = none := by
    rw [findDuplicate_eq_none]
    intro x hx hc
    rcases (mem_afterInsert s p x).mp hx with hxold | rfl
    · exact no_reverse_row s p hinv hdup hsym x hxold hc
    · exact hne hc.1
  unfold relationshipExists
  rw [hnd]
  rfl

/-- A successful symmetric create, from an invariant-satisfying state, took
the mirror-inserting branch. -/
theorem create_symmetric_shape (s : DBState) (p : RelationshipCreate)
    (r : Relationship) (s' : DBState) (hinv : DBInv s)
    (hsym : symmetricCat p.relationship_category = true)
    (h : createRelationship s p = (.ok r, s')) :
    r = rowOfPayload p s.nextId ∧ s' = afterInsertMirror s p ∧
    (∃ pr, validateRelationshipPeople s p.from_person_id p.to_person_id
      = .ok pr) ∧
    findDuplicate s p.from_person_id p.to_person_id
      p.relationship_category = none := by
  rcases createRelationship_cases s p with ⟨e, he⟩ |
    ⟨⟨pr, hv⟩, hdup, hrules, hcase⟩
  · rw [he] at h
    exact absurd h (by simp)
  · rcases hcase with ⟨hf, heq⟩ | ⟨-, hrec, heq⟩ | ⟨-, hrec, heq⟩
    · rw [hf] at hsym
      exact absurd hsym (by simp)
    · rw [reverse_probe_false s p pr hinv hv hdup hsym] at hrec
      exact absurd hrec (by simp)
    · rw [heq] at h
      exact ⟨(Except.ok.inj (congrArg Prod.fst h)).symm,
        (congrArg Prod.snd h).symm, ⟨pr, hv⟩, hdup⟩

/-- The invariants survive a non-symmetric insert. -/
theorem dbinv_afterInsert (s : DBState) (p : RelationshipCreate)
    (hinv : DBInv s)
    (hdup : findDuplicate s p.from_person_id p.to_person_id
      p.relationship_category = none)
    (hsymf : symmetricCat p.relationship_category = false) :
    DBInv (afterInsert s p) := by
  have hnew : ∀ x ∈ s.rels, ¬(x.from_person_id = p.from_person_id ∧
      x.to_person_id = p.to_person_id ∧
      x.relationship_category = p.relationship_category) :=
    (findDuplicate_eq_none s _ _ _).mp hdup
  refine ⟨?_, ?_, ?_, ?_⟩
  · intro x hx y hy h1 h2 h3
    rcases (mem_afterInsert s p x).mp hx with hxo | rfl <;>
      rcases (mem_afterInsert s p y).mp hy with hyo | rfl
    · exact hinv.keyUnique x hxo y hyo h1 h2 h3
    · exact absurd ⟨h1, h2, h3⟩ (hnew x hxo)
    · exact absurd ⟨h1.symm, h2.symm, h3.symm⟩ (hnew y hyo)
    · rfl
  · intro x hx y hy h1
    rcases (mem_afterInsert s p x).mp hx with hxo | rfl <;>
      rcases (mem_afterInsert s p y).mp hy with hyo | rfl
    · exact hinv.idUnique x hxo y hyo h1
    · have hb := hinv.idBound x hxo
      have h1' : x.id = s.nextId := h1
      omega
    · have hb := hinv.idBound y hyo
      have h1' : s.nextId = y.id := h1
      omega
    · rfl
  · intro x hx
    rcases (mem_afterInsert s p x).mp hx with hxo | rfl
    · exact Nat.lt_succ_of_lt (hinv.idBound x hxo)
    · exact Nat.lt_succ_self s.nextId
  · intro x hx hxsym
    rcases (mem_afterInsert s p x).mp hx with hxo | rfl
    · obtain ⟨m, hm, hf, ht, hc⟩ := hinv.mirrored x hxo hxsym
      exact ⟨m, (mem_afterInsert s p m).mpr (Or.inl hm), hf, ht, hc⟩
    · rw [show symmetricCat (rowOfPayload p s.nextId).relationship_category
          = false from hsymf] at hxsym
      exact absurd hxsym (by simp)

/-- The invariants survive a symmetric insert together with its mirror. -/
theorem dbinv_afterInsertMirror (s : DBState) (p : RelationshipCreate)
    (pr : Person × Person) (hinv : DBInv s)
    (hv : validateRelationshipPeople s p.from_person_id p.to_person_id
      = .ok pr)
    (hdup : findDuplicate s p.from_person_id p.to_person_id
      p.relationship_category = none)
    (hsym : symmetricCat p.relationship_category = true) :
    DBInv (afterInsertMirror s p) := by
  have hne := validatePeople_ok_ne s _ _ pr hv
  have hnew : ∀ x ∈ s.rels, ¬(x.from_person_id = p.from_person_id ∧
      x.to_person_id = p.to_person_id ∧
      x.relationship_category = p.relationship_category) :=
    (findDuplicate_eq_none s _ _ _).mp hdup
  have hrev := no_reverse_row s p hinv hdup hsym
  refine ⟨?_, ?_, ?_, ?_⟩
  · intro x hx y hy h1 h2 h3
    rcases (mem_afterInsertMirror s p x).mp hx with hxo | rfl | rfl <;>
      rcases (mem_afterInsertMirror s p y).mp hy with hyo | rfl | rfl
    · exact hinv.keyUnique x hxo y hyo h1 h2 h3
    · exact absurd ⟨h1, h2, h3⟩ (hnew x hxo)
    · exact absurd ⟨h1, h2, h3⟩ (hrev x hxo)
    · exact absurd ⟨h1.symm, h2.symm, h3.symm⟩ (hnew y hyo)
    · rfl
    · exact absurd (h1 : p.from_person_id = p.to_person_id) hne
    · exact absurd ⟨h1.symm, h2.symm, h3.symm⟩ (hrev y hyo)
    · exact absurd (h1 : p.to_person_id = p.from_person_id) (Ne.symm hne)
    · rfl
  · intro x hx y hy h1
    rcases (mem_afterInsertMirror s p x).mp hx with hxo | rfl | rfl <;>
      rcases (mem_afterInsertMirror s p y).mp hy with hyo | rfl | rfl
    · exact hinv.idUnique x hxo y hyo h1
    · have hb := hinv.idBound x hxo
      have h1' : x.id = s.nextId := h1
      omega
    · have hb := hinv.idBound x hxo
      have h1' : x.id = s.nextId + 1 := h1
      omega
    · have hb := hinv.idBound y hyo
      have h1' : s.nextId = y.id := h1
      omega
    · rfl
    · have h1' : s.nextId = s.nextId + 1 := h1
      omega
    · have hb := hinv.idBound y hyo
      have h1' : s.nextId + 1 = y.id := h1
      omega
    · have h1' : s.nextId + 1 = s.nextId := h1
      omega
    · rfl
  · intro x hx
    rcases (mem_afterInsertMirror s p x).mp hx with hxo | rfl | rfl
    · have := hinv.idBound x hxo
      show x.id < s.nextId + 2
      omega
    · show s.nextId < s.nextId + 2
      omega
    · show s.nextId + 1 < s.nextId + 2
      omega
  · intro x hx hxsym
    rcases (mem_afterInsertMirror s p x).mp hx with hxo | rfl | rfl
    · obtain ⟨m, hm, hf, ht, hc⟩ := hinv.mirrored x hxo hxsym
      exact ⟨m, (mem_afterInsertMirror s p m).mpr (Or.inl hm), hf, ht, hc⟩
    · exact ⟨mirrorOf (rowOfPayload p s.nextId) (s.nextId + 1),
        (mem_afterInsertMirror s p _).mpr (Or.inr (Or.inr rfl)),
        rfl, rfl, rfl⟩
    · exact ⟨rowOfPayload p s.nextId,
        (mem_afterInsertMirror s p _).mpr (Or.inr (Or.inl rfl)),
        rfl, rfl, rfl⟩

/-- The invariants survive every delete. -/
theorem dbinv_delete (s : DBState) (rid : Nat) (hinv : DBInv s) :
    DBInv (deleteRelationship s rid).2 := by
  rcases deleteRelationship_cases s rid with ⟨-, heq⟩ | ⟨r, hr, hcase⟩
  · rw [heq]
    exact hinv
  · obtain ⟨hrmem, hrid⟩ := getRelationship_some s rid r hr
    rcases hcase with ⟨hsymf, heq⟩ | ⟨hsym, m0, hm0, heq⟩ | ⟨hsym, hnone, heq⟩
    · rw [heq]
      refine ⟨?_, ?_, ?_, ?_⟩
      · intro x hx y hy h1 h2 h3
        exact hinv.keyUnique x ((mem_deleteRow _ _ _).mp hx).1
          y ((mem_deleteRow _ _ _).mp hy).1 h1 h2 h3
      · intro x hx y hy h1
        exact hinv.idUnique x ((mem_deleteRow _ _ _).mp hx).1
          y ((mem_deleteRow _ _ _).mp hy).1 h1
      · intro x hx
        exact hinv.idBound x ((mem_deleteRow _ _ _).mp hx).1
      · intro x hx hxsym
        obtain ⟨hxmem, hxid⟩ := (mem_deleteRow _ _ _).mp hx
        obtain ⟨y, hy, hyf, hyt, hyc⟩ := hinv.mirrored x hxmem hxsym
        refine ⟨y, (mem_deleteRow _ _ _).mpr ⟨hy, ?_⟩, hyf, hyt, hyc⟩
        intro hyid
        have hyr : y = r := hinv.idUnique y hy r hrmem (by rw [hyid, hrid])
        have hysym : symmetricCat y.relationship_category = true := by
          rw [hyc]
          exact hxsym
        rw [hyr, hsymf] at hysym
        exact absurd hysym (by simp)
    · rw [heq]
      have hm0mem : m0 ∈ s.rels := List.mem_of_find?_eq_some hm0
      have hm0pred := List.find?_some hm0
      simp only [Bool.and_eq_true, beq_iff_eq] at hm0pred
      obtain ⟨⟨hm0f, hm0t⟩, hm0c⟩ := hm0pred
      have memNested : ∀ x : Relationship,
          x ∈ deleteRow (deleteRow s.rels m0.id) rid ↔
            x ∈ s.rels ∧ x.id ≠ m0.id ∧ x.id ≠ rid := by
        intro x
        rw [mem_deleteRow, mem_deleteRow, and_assoc]
      refine ⟨?_, ?_, ?_, ?_⟩
      · intro x hx y hy h1 h2 h3
        exact hinv.keyUnique x ((memNested x).mp hx).1
          y ((memNested y).mp hy).1 h1 h2 h3
      · intro x hx y hy h1
        exact hinv.idUnique x ((memNested x).mp hx).1
          y ((memNested y).mp hy).1 h1
      · intro x hx
        exact hinv.idBound x ((memNested x).mp hx).1
      · intro x hx hxsym
        obtain ⟨hxmem, hxnm, hxnr⟩ := (memNested x).mp hx
        obtain ⟨y, hy, hyf, hyt, hyc⟩ := hinv.mirrored x hxmem hxsym
        refine ⟨y, (memNested y).mpr ⟨hy, ?_, ?_⟩, hyf, hyt, hyc⟩
        · intro hyid
          have hym : y = m0 := hinv.idUnique y hy m0 hm0mem hyid
          have hxr : x = r :=
            hinv.keyUnique x hxmem r hrmem
              (by rw [← hyt, hym]; exact hm0t)
              (by rw [← hyf, hym]; exact hm0f)
              (by rw [← hyc, hym]; exact hm0c)
          exact hxnr (by rw [hxr, hrid])
        · intro hyid
          have hyr : y = r := hinv.idUnique y hy r hrmem (by rw [hyid, hrid])
          have hxm : x = m0 :=
            hinv.keyUnique x hxmem m0 hm0mem
              (by rw [← hyt, hyr]; exact hm0f.symm)
              (by rw [← hyf, hyr]; exact hm0t.symm)
              (by rw [← hyc, hyr]; exact hm0c.symm)
          exact hxnm (by rw [hxm])
    · exfalso
      obtain ⟨m, hm, h1, h2, h3⟩ := hinv.mirrored r hrmem hsym
      rw [List.find?_eq_none] at hnone
      exact hnone m hm (by simp [h1, h2, h3])

/-- Claim C1: from an invariant-satisfying state, a successful partner or
sibling create leaves a mirror row with the same category and subtype,
generation difference 0, and the same dates, notes and active flag; deleting
either row of a partner/sibling pair removes both; and both operations
preserve the pairing invariant, so no create or delete leaves a one-sided
partner/sibling edge. -/
theorem claim_C1_reciprocity :
    (∀ (s : DBState) (p : RelationshipCreate) (r : Relationship)
        (s' : DBState),
      DBInv s → symmetricCat p.relationship_category = true →
      createRelationship s p = (.ok r, s') →
      r ∈ s'.rels ∧
      (∃ m ∈ s'.rels, m.from_person_id = r.to_person_id ∧
        m.to_person_id = r.from_person_id ∧
        m.relationship_category = r.relationship_category ∧
        m.relationship_subtype = r.relationship_subtype ∧
        m.generation_difference = some 0 ∧
        m.start_date = r.start_date ∧ m.end_date = r.end_date ∧
        m.notes = r.notes ∧ m.is_active = r.is_active) ∧
      DBInv s') ∧
    (∀ (s : DBState) (p : RelationshipCreate),
      DBInv s → DBInv (createRelationship s p).2) ∧
    (∀ (s : DBState) (rid : Nat) (r : Relationship),
      DBInv s → getRelationship s rid = some r →
      symmetricCat r.relationship_category = true →
      r ∉ (deleteRelationship s rid).2.rels ∧
      (∀ m ∈ s.rels, m.from_person_id = r.to_person_id →
        m.to_person_id = r.from_person_id →
        m.relationship_category = r.relationship_category →
        m ∉ (deleteRelationship s rid).2.rels)) ∧
    (∀ (s : DBState) (rid : Nat),
      DBInv s → DBInv (deleteRelationship s rid).2) := by
  refine ⟨?_, ?_, ?_, fun s rid hinv => dbinv_delete s rid hinv⟩
  · intro s p r s' hinv hsym h
    obtain ⟨hrow, hstate, ⟨pr, hv⟩, hdup⟩ :=
      create_symmetric_shape s p r s' hinv hsym h
    subst hrow
    subst hstate
    refine ⟨(mem_afterInsertMirror s p _).mpr (Or.inr (Or.inl rfl)),
      ⟨mirrorOf (rowOfPayload p s.nextId) (s.nextId + 1),
        (mem_afterInsertMirror s p _).mpr (Or.inr (Or.inr rfl)),
        rfl, rfl, rfl, rfl, rfl, rfl, rfl, rfl, rfl⟩,
      dbinv_afterInsertMirror s p pr hinv hv hdup hsym⟩
  · intro s p hinv
    rcases createRelationship_cases s p with ⟨e, he⟩ |
      ⟨⟨pr, hv⟩, hdup, hrules, hcase⟩
    · rw [he]
      exact hinv
    · rcases hcase with ⟨hf, heq⟩ | ⟨hsym, hrec, heq⟩ | ⟨hsym, hrec, heq⟩
      · rw [heq]
        exact dbinv_afterInsert s p hinv hdup hf
      · rw [reverse_probe_false s p pr hinv hv hdup hsym] at hrec
        exact absurd hrec (by simp)
      · rw [heq]
        exact dbinv_afterInsertMirror s p pr hinv hv hdup hsym
  · intro s rid r hinv hr hsym
    obtain ⟨hrmem, hrid⟩ := getRelationship_some s rid r hr
    rcases deleteRelationship_cases s rid with ⟨hnone, -⟩ | ⟨r', hr', hcase⟩
    · rw [hr] at hnone
      cases hnone
    · rw [hr] at hr'
      have heq : r = r' := Option.some.inj hr'
      subst heq
      rcases hcase with ⟨hsymf, -⟩ | ⟨-, m0, hm0, heq⟩ | ⟨-, hfnone, -⟩
      · rw [hsymf] at hsym
        exact absurd hsym (by simp)
      · rw [heq]
        have hm0mem : m0 ∈ s.rels := List.mem_of_find?_eq_some hm0
        have hm0pred := List.find?_some hm0
        simp only [Bool.and_eq_true, beq_iff_eq] at hm0pred
        obtain ⟨⟨hm0f, hm0t⟩, hm0c⟩ := hm0pred
        constructor
        · intro hmem
          obtain ⟨-, hne⟩ := (mem_deleteRow _ _ _).mp hmem
          exact hne hrid
        · intro m hm h1 h2 h3 hmem
          have hmm0 : m = m0 :=
            hinv.keyUnique m hm m0 hm0mem (by rw [h1, hm0f])
              (by rw [h2, hm0t]) (by rw [h3, hm0c])
          obtain ⟨hmem', -⟩ := (mem_deleteRow _ _ _).mp hmem
          obtain ⟨-, hne'⟩ := (mem_deleteRow _ _ _).mp hmem'
          exact hne' (by rw [hmm0])
      · exfalso
        obtain ⟨m, hm, h1, h2, h3⟩ := hinv.mirrored r hrmem hsym
        rw [List.find?_eq_none] at hfnone
        exact hfnone m hm (by simp [h1, h2, h3])

/-- A partner payload between persons 1 and 2. -/
def partnerPayload : RelationshipCreate :=
  { from_person_id := 1, to_person_id := 2
    relationship_category := RCategory.partner
    relationship_subtype := some "spouse"
    generation_difference := none
    start_date := none, end_date := none
    is_active := true, notes := none }

/-- The empty-relationship state satisfies the invariants. -/
theorem c3State_inv : DBInv c3State := by
  constructor <;> intro r hr <;> simp [c3State] at hr

/-- Witness for `claim_C1_reciprocity`: creating a partner relationship
between 1 and 2 in the concrete two-person tree stores the row with its
mirror and keeps the invariants. -/
theorem claim_C1_reciprocity_witness :
    rowOfPayload partnerPayload 10 ∈
      (afterInsertMirror c3State partnerPayload).rels ∧
    (∃ m ∈ (afterInsertMirror c3State partnerPayload).rels,
      m.from_person_id = (rowOfPayload partnerPayload 10).to_person_id ∧
      m.to_person_id = (rowOfPayload partnerPayload 10).from_person_id ∧
      m.relationship_category =
        (rowOfPayload partnerPayload 10).relationship_category ∧
      m.relationship_subtype =
        (rowOfPayload partnerPayload 10).relationship_subtype ∧
      m.generation_difference = some 0 ∧
      m.start_date = (rowOfPayload partnerPayload 10).start_date ∧
      m.end_date = (rowOfPayload partnerPayload 10).end_date ∧
      m.notes = (rowOfPayload partnerPayload 10).notes ∧
      m.is_active = (rowOfPayload partnerPayload 10).is_active) ∧
    DBInv (afterInsertMirror c3State partnerPayload) :=
  claim_C1_reciprocity.1 c3State partnerPayload
    (rowOfPayload partnerPayload 10)
    (afterInsertMirror c3State partnerPayload) c3State_inv rfl rfl

/-! ### BFS path finding (claims C4 and C10) -/

/-- An empty chain connects a node only to itself. -/
theorem chain_nil_eq {rels : List Relationship} {a b : Nat}
    {p : List Relationship} (h : Chain rels a b p) (hp : p = []) : a = b := by
  induction h with
  | nil => rfl
  | snoc hc hr hm ih => exact absurd hp (by simp)

/-- Adjacency membership coincides with the existence of a stored row that
keys the pair in the relationship map. -/
theorem mem_neighborsOf_iff (rels : List Relationship) (c b : Nat) :
    b ∈ neighborsOf rels c ↔ ∃ r ∈ rels, relMapMatchesB c b r = true := by
  unfold neighborsOf
  rw [List.mem_flatMap]
  constructor
  · rintro ⟨r, hr, hb⟩
    refine ⟨r, hr, ?_⟩
    unfold relMapMatchesB
    rcases List.mem_append.mp hb with h | h
    · by_cases hA : r.from_person_id = c
      · rw [if_pos hA] at h
        have hb2 : b = r.to_person_id := by simpa using h
        simp [hA, hb2]
      · rw [if_neg hA] at h
        cases h
    · by_cases hB : symmetricCat r.relationship_category = true ∧
          r.to_person_id = c
      · rw [if_pos hB] at h
        have hb2 : b = r.from_person_id := by simpa using h
        simp [hB.1, hB.2, hb2]
      · rw [if_neg hB] at h
        cases h
  · rintro ⟨r, hr, hm⟩
    refine ⟨r, hr, ?_⟩
    unfold relMapMatchesB at hm
    simp only [Bool.or_eq_true, Bool.and_eq_true, beq_iff_eq] at hm
    rcases hm with ⟨h1, h2⟩ | ⟨⟨hs, h1⟩, h2⟩
    · apply List.mem_append_left
      rw [if_pos h1]
      simp [h2.symm]
    · apply List.mem_append_right
      rw [if_pos ⟨hs, h1⟩]
      simp [h2.symm]

/-- A neighbor always has a relationship-map entry, itself a stored matching
row (the dictionary keeps the last writer, still a matching row). -/
theorem relMapLookup_of_mem_neighbors (rels : List Relationship) (c b : Nat)
    (h : b ∈ neighborsOf rels c) :
    ∃ rel, relMapLookup rels c b = some rel ∧ rel ∈ rels ∧
      relMapMatchesB c b rel = true := by
  obtain ⟨r, hr, hm⟩ := (mem_neighborsOf_iff rels c b).mp h
  have hfil : r ∈ rels.filter (relMapMatchesB c b) :=
    List.mem_filter.mpr ⟨hr, hm⟩
  have hne : rels.filter (relMapMatchesB c b) ≠ [] :=
    List.ne_nil_of_mem hfil
  refine ⟨(rels.filter (relMapMatchesB c b)).getLast hne, ?_, ?_, ?_⟩
  · unfold relMapLookup
    exact List.getLast?_eq_getLast _ hne
  · exact (List.mem_filter.mp (List.getLast_mem hne)).1
  · exact (List.mem_filter.mp (List.getLast_mem hne)).2

/-- Both endpoints of a matching row occur in the node list. -/
theorem matches_mem_nodesOf (rels : List Relationship) (r : Relationship)
    (c b : Nat) (hr : r ∈ rels) (hm : relMapMatchesB c b r = true) :
    b ∈ nodesOf rels ∧ c ∈ nodesOf rels := by
  unfold relMapMatchesB at hm
  simp only [Bool.or_eq_true, Bool.and_eq_true, beq_iff_eq] at hm
  unfold nodesOf
  rcases hm with ⟨h1, h2⟩ | ⟨⟨hs, h1⟩, h2⟩
  · exact ⟨List.mem_flatMap.mpr ⟨r, hr, by simp [h2]⟩,
      List.mem_flatMap.mpr ⟨r, hr, by simp [h1]⟩⟩
  · exact ⟨List.mem_flatMap.mpr ⟨r, hr, by simp [h2]⟩,
      List.mem_flatMap.mpr ⟨r, hr, by simp [h1]⟩⟩

/-- A neighbor is a node of the relationship list. -/
theorem mem_nodesOf_of_neighbor (rels : List Relationship) (c b : Nat)
    (h : b ∈ neighborsOf rels c) : b ∈ nodesOf rels := by
  obtain ⟨r, hr, hm⟩ := (mem_neighborsOf_iff rels c b).mp h
  exact (matches_mem_nodesOf rels r c b hr hm).1

/-- A node reached by a nonempty chain is a graph key, as is its source. -/
theorem chain_endpoints_inGraph {rels : List Relationship} {a b : Nat}
    {p : List Relationship} (h : Chain rels a b p) (hp : p ≠ []) :
    inGraphB rels a = true ∧ inGraphB rels b = true := by
  have hin : ∀ (x y : Nat) (r : Relationship), r ∈ rels →
      relMapMatchesB x y r = true →
      inGraphB rels x = true ∧ inGraphB rels y = true := by
    intro x y r hr hm
    unfold relMapMatchesB at hm
    simp only [Bool.or_eq_true, Bool.and_eq_true, beq_iff_eq] at hm
    unfold inGraphB
    rcases hm with ⟨h1, h2⟩ | ⟨⟨hs, h1⟩, h2⟩
    · exact ⟨List.any_eq_true.mpr ⟨r, hr, by simp [h1]⟩,
        List.any_eq_true.mpr ⟨r, hr, by simp [h2]⟩⟩
    · exact ⟨List.any_eq_true.mpr ⟨r, hr, by simp [h1]⟩,
        List.any_eq_true.mpr ⟨r, hr, by simp [h2]⟩⟩
  induction h with
  | nil => exact absurd rfl hp
  | @snoc b' c' p' r' hc hr hm ih =>
      rcases Classical.em (p' = []) with hp' | hp'
      · have hab := chain_nil_eq hc hp'
        subst hab
        exact (hin _ _ _ hr hm)
      · exact ⟨(ih hp').1, (hin _ _ _ hr hm).2⟩

/-- The count of graph nodes not yet visited, the BFS termination measure. -/
def unvisitedCount (rels : List Relationship) (visited : List Nat) : Nat :=
  (nodesOf rels).countP (fun n => decide (n ∉ visited))

/-- Visiting more nodes never increases the measure. -/
theorem unvisitedCount_mono (rels : List Relationship) (v v' : List Nat)
    (h : ∀ x ∈ v, x ∈ v') :
    unvisitedCount rels v' ≤ unvisitedCount rels v := by
  unfold unvisitedCount
  apply List.countP_mono_left
  intro a ha hd
  simp only [decide_eq_true_eq] at hd ⊢
  exact fun hav => hd (h a hav)

/-- Excluding one more node can only lower a not-visited count. -/
theorem countP_notMem_cons_le (xs : List Nat) (v : List Nat) (b : Nat) :
    xs.countP (fun n => decide (n ∉ b :: v)) ≤
      xs.countP (fun n => decide (n ∉ v)) := by
  apply List.countP_mono_left
  intro a ha hd
  simp only [decide_eq_true_eq] at hd ⊢
  exact fun hav => hd (List.mem_cons_of_mem b hav)

/-- Excluding a present, not-yet-excluded node strictly lowers the count. -/
theorem countP_notMem_cons_lt (l v : List Nat) (b : Nat)
    (hb : b ∈ l) (hbv : b ∉ v) :
    l.countP (fun n => decide (n ∉ b :: v)) + 1 ≤
      l.countP (fun n => decide (n ∉ v)) := by
  induction l with
  | nil => cases hb
  | cons x xs ih =>
      rw [List.countP_cons, List.countP_cons]
      rcases List.mem_cons.mp hb with rfl | hxs
      · have h1 : decide (b ∉ b :: v) = false := by simp
        have h2 : decide (b ∉ v) = true := by simp [hbv]
        rw [h1, h2]
        simp only [Bool.false_eq_true, if_false, if_true]
        have := countP_notMem_cons_le xs v b
        omega
      · have := ih hxs
        by_cases hx : x ∈ v
        · have h1 : decide (x ∉ b :: v) = false := by
            simp [List.mem_cons_of_mem b hx]
          have h2 : decide (x ∉ v) = false := by simp [hx]
          rw [h1, h2]
          simp only [Bool.false_eq_true, if_false]
          omega
        · have h2 : decide (x ∉ v) = true := by simp [hx]
          rw [h2]
          by_cases hxb : x = b
          · have h1 : decide (x ∉ b :: v) = false := by
              simp [hxb]
            rw [h1]
            simp only [Bool.false_eq_true, if_false, if_true]
            omega
          · have h1 : decide (x ∉ b :: v) = true := by
              simp [hxb, hx]
            rw [h1]
            simp only [if_true]
            omega

/-- Freshly visiting a graph node strictly decreases the measure. -/
theorem unvisitedCount_cons_lt (rels : List Relationship) (v : List Nat)
    (b : Nat) (hb : b ∈ nodesOf rels) (hbv : b ∉ v) :
    unvisitedCount rels (b :: v) + 1 ≤ unvisitedCount rels v :=
  countP_notMem_cons_lt (nodesOf rels) v b hb hbv

/-- What the neighbor-expansion fold of `_find_shortest_path` produces: the
accumulator grows by entries for the freshly visited neighbors, each carrying
the path extended by a stored matching row, every processed neighbor ends up
visited, and the enqueue count is paid for by the unvisited-node measure. -/
theorem enqueueFold_spec (rels : List Relationship) (c : Nat)
    (pth : List Relationship) :
    ∀ ns : List Nat, (∀ b ∈ ns, b ∈ neighborsOf rels c) →
    ∀ (acc : List (Nat × List Relationship)) (visited : List Nat),
    ∃ adds visited',
      ns.foldl (enqueueStep (relMapLookup rels) c pth) (acc, visited) =
        (acc ++ adds, visited') ∧
      (∀ x ∈ visited, x ∈ visited') ∧
      (∀ x ∈ visited', x ∈ visited ∨
        (x ∈ ns ∧ x ∈ adds.map Prod.fst)) ∧
      (∀ b ∈ ns, b ∈ visited') ∧
      (∀ e ∈ adds, e.1 ∈ ns ∧ e.1 ∉ visited ∧
        ∃ rel, rel ∈ rels ∧ relMapMatchesB c e.1 rel = true ∧
          e.2 = pth ++ [rel]) ∧
      adds.length + unvisitedCount rels visited' ≤
        unvisitedCount rels visited := by
  intro ns
  induction ns with
  | nil =>
      intro hns acc visited
      refine ⟨[], visited, by simp, fun x hx => hx,
        fun x hx => Or.inl hx, ?_, ?_, by simp⟩
      · intro b hb
        cases hb
      · intro e he
        cases he
  | cons b rest ih =>
      intro hns acc visited
      have hbn : b ∈ neighborsOf rels c := hns b (List.mem_cons_self b rest)
      have hrest : ∀ x ∈ rest, x ∈ neighborsOf rels c :=
        fun x hx => hns x (List.mem_cons_of_mem b hx)
      by_cases hbv : b ∈ visited
      · have hstep : enqueueStep (relMapLookup rels) c pth (acc, visited) b
            = (acc, visited) := by
          unfold enqueueStep
          rw [if_pos hbv]
        obtain ⟨adds, visited', heq, h1, h2, h3, h4, h5⟩ :=
          ih hrest acc visited
        refine ⟨adds, visited', ?_, h1, ?_, ?_, ?_, h5⟩
        · rw [List.foldl_cons, hstep]
          exact heq
        · intro x hx
          rcases h2 x hx with h | ⟨hr', hm'⟩
          · exact Or.inl h
          · exact Or.inr ⟨List.mem_cons_of_mem b hr', hm'⟩
        · intro b' hb'
          rcases List.mem_cons.mp hb' with rfl | hb'
          · exact h1 b' hbv
          · exact h3 b' hb'
        · intro e he
          obtain ⟨he1, he2, he3⟩ := h4 e he
          exact ⟨List.mem_cons_of_mem b he1, he2, he3⟩
      · obtain ⟨rel, hlook, hrel, hmatch⟩ :=
          relMapLookup_of_mem_neighbors rels c b hbn
        have hstep : enqueueStep (relMapLookup rels) c pth (acc, visited) b
            = (acc ++ [(b, pth ++ [rel])], b :: visited) := by
          unfold enqueueStep
          rw [if_neg hbv, hlook]
        obtain ⟨adds, visited', heq, h1, h2, h3, h4, h5⟩ :=
          ih hrest (acc ++ [(b, pth ++ [rel])]) (b :: visited)
        refine ⟨(b, pth ++ [rel]) :: adds, visited', ?_, ?_, ?_, ?_, ?_, ?_⟩
        · rw [List.foldl_cons, hstep, heq]
          simp
        · intro x hx
          exact h1 x (List.mem_cons_of_mem b hx)
        · intro x hx
          rcases h2 x hx with h | ⟨hr', hm'⟩
          · rcases List.mem_cons.mp h with rfl | h
            · exact Or.inr ⟨List.mem_cons_self _ _, by simp⟩
            · exact Or.inl h
          · refine Or.inr ⟨List.mem_cons_of_mem b hr', ?_⟩
            rw [List.map_cons]
            exact List.mem_cons_of_mem _ hm'
        · intro b' hb'
          rcases List.mem_cons.mp hb' with rfl | hb'
          · exact h1 b' (List.mem_cons_self _ _)
          · exact h3 b' hb'
        · intro e he
          rcases List.mem_cons.mp he with rfl | he
          · exact ⟨List.mem_cons_self _ _, hbv, rel, hrel, hmatch, rfl⟩
          · obtain ⟨he1, he2, he3⟩ := h4 e he
            exact ⟨List.mem_cons_of_mem b he1,
              fun hee => he2 (List.mem_cons_of_mem b hee), he3⟩
        · have hc1 : unvisitedCount rels (b :: visited) + 1 ≤
              unvisitedCount rels visited :=
            unvisitedCount_cons_lt rels visited b
              (mem_nodesOf_of_neighbor rels c b hbn) hbv
          simp only [List.length_cons]
          omega

/-- The inductive invariant of the BFS loop, with `D` the ghost discovery
depth of each visited node. -/
structure BfsInv (rels : List Relationship) (start endId maxDepth : Nat)
    (queue : List (Nat × List Relationship)) (visited : List Nat)
    (D : Nat → Nat) : Prop where
  entries : ∀ e ∈ queue, Chain rels start e.1 e.2 ∧ e.1 ∈ visited ∧
    e.2.length = D e.1
  visitedChain : ∀ n ∈ visited, ∃ p, Chain rels start n p ∧ p.length = D n
  sorted : List.Pairwise (· ≤ ·) (queue.map (fun e => e.2.length))
  spread : ∀ e ∈ queue, ∀ f ∈ queue, e.2.length ≤ f.2.length + 1
  startVisited : start ∈ visited
  startD : D start = 0
  closure : ∀ n ∈ visited, n ∉ queue.map Prod.fst → D n < maxDepth →
    ∀ b ∈ neighborsOf rels n, b ∈ visited ∧ D b ≤ D n + 1
  bounded : ∀ b ∈ visited, ∀ e ∈ queue, D b ≤ e.2.length + 1
  endNotProcessed : start ≠ endId → endId ∈ visited →
    endId ∈ queue.map Prod.fst ∨ maxDepth ≤ D endId

/-- The frontier argument: any chain from the start either crosses the
queue, or is at least as long as the depth bound, or ends at a node already
expanded below the bound. -/
theorem bfs_walk (rels : List Relationship) (start endId maxDepth : Nat)
    (queue : List (Nat × List Relationship)) (visited : List Nat)
    (D : Nat → Nat) (hinv : BfsInv rels start endId maxDepth queue visited D)
    (m : Nat) (q : List Relationship) (hq : Chain rels start m q) :
    (∃ e ∈ queue, D e.1 ≤ q.length) ∨ maxDepth ≤ q.length ∨
    (m ∈ visited ∧ m ∉ queue.map Prod.fst ∧ D m ≤ q.length ∧
      D m < maxDepth) := by
  induction hq with
  | nil =>
      by_cases hsq : start ∈ queue.map Prod.fst
      · obtain ⟨e, he, heq⟩ := List.mem_map.mp hsq
        refine Or.inl ⟨e, he, ?_⟩
        rw [heq, hinv.startD]
        exact Nat.zero_le _
      · by_cases hd : 0 < maxDepth
        · exact Or.inr (Or.inr ⟨hinv.startVisited, hsq,
            by rw [hinv.startD]; exact Nat.zero_le _,
            by rw [hinv.startD]; exact hd⟩)
        · exact Or.inr (Or.inl (by omega))
  | @snoc b' c' p' r' hc hr hm ih =>
      rcases ih with ⟨e, he, hd⟩ | hmax | ⟨hv, hnq, hdb, hdm⟩
      · exact Or.inl ⟨e, he, by simp only [List.length_append,
          List.length_singleton]; omega⟩
      · exact Or.inr (Or.inl (by simp only [List.length_append,
          List.length_singleton]; omega))
      · obtain ⟨hcv, hdc⟩ := hinv.closure b' hv hnq hdm c'
          ((mem_neighborsOf_iff rels b' c').mpr ⟨r', hr, hm⟩)
        by_cases hcq : c' ∈ queue.map Prod.fst
        · obtain ⟨e, he, heq⟩ := List.mem_map.mp hcq
          refine Or.inl ⟨e, he, ?_⟩
          rw [heq]
          simp only [List.length_append, List.length_singleton]
          omega
        · by_cases hcd : D c' < maxDepth
          · refine Or.inr (Or.inr ⟨hcv, hcq, ?_, hcd⟩)
            simp only [List.length_append, List.length_singleton]
            omega
          · refine Or.inr (Or.inl ?_)
            simp only [List.length_append, List.length_singleton]
            omega

/-- Unfolding the BFS loop at a depth-skipped head. -/
theorem bfsAux_cons_skip (adj : Nat → List Nat)
    (rmap : Nat → Nat → Option Relationship) (endId maxDepth fuel : Nat)
    (c : Nat) (pth : List Relationship)
    (tail : List (Nat × List Relationship)) (visited : List Nat)
    (h : maxDepth ≤ pth.length) :
    bfsAux adj rmap endId maxDepth (fuel + 1) ((c, pth) :: tail) visited =
      bfsAux adj rmap endId maxDepth fuel tail visited := by
  simp only [bfsAux]
  rw [if_pos h]

/-- Unfolding the BFS loop when the head reaches the goal below the bound. -/
theorem bfsAux_cons_found (adj : Nat → List Nat)
    (rmap : Nat → Nat → Option Relationship) (endId maxDepth fuel : Nat)
    (c : Nat) (pth : List Relationship)
    (tail : List (Nat × List Relationship)) (visited : List Nat)
    (h1 : ¬ maxDepth ≤ pth.length) (h2 : c = endId) :
    bfsAux adj rmap endId maxDepth (fuel + 1) ((c, pth) :: tail) visited =
      pth := by
  simp only [bfsAux]
  rw [if_neg h1, if_pos h2]

/-- Unfolding the BFS loop at an expanded head. -/
theorem bfsAux_cons_expand (adj : Nat → List Nat)
    (rmap : Nat → Nat → Option Relationship) (endId maxDepth fuel : Nat)
    (c : Nat) (pth : List Relationship)
    (tail : List (Nat × List Relationship)) (visited : List Nat)
    (h1 : ¬ maxDepth ≤ pth.length) (h2 : ¬ c = endId) :
    bfsAux adj rmap endId maxDepth (fuel + 1) ((c, pth) :: tail) visited =
      bfsAux adj rmap endId maxDepth fuel
        (tail ++ ((adj c).foldl (enqueueStep rmap c pth) ([], visited)).1)
        ((adj c).foldl (enqueueStep rmap c pth) ([], visited)).2 := by
  simp only [bfsAux]
  rw [if_neg h1, if_neg h2]

/-- With an empty queue, the invariant refutes every chain to the goal
shorter than the depth bound. -/
theorem bfs_empty_complete (rels : List Relationship)
    (start endId maxDepth : Nat) (visited : List Nat) (D : Nat → Nat)
    (hinv : BfsInv rels start endId maxDepth [] visited D)
    (hne : start ≠ endId) :
    ∀ q, Chain rels start endId q → maxDepth ≤ q.length := by
  intro q hq
  rcases bfs_walk rels start endId maxDepth [] visited D hinv endId q hq with
    ⟨e, he, -⟩ | hmax | ⟨hv, -, hdb, hdm⟩
  · cases he
  · exact hmax
  · rcases hinv.endNotProcessed hne hv with hin | hge
    · simp at hin
    · omega

/-- Constant lists are sorted. -/
theorem pairwise_le_of_const (l : List Nat) (k : Nat)
    (h : ∀ x ∈ l, x = k) : List.Pairwise (· ≤ ·) l := by
  induction l with
  | nil => exact List.Pairwise.nil
  | cons a t ih =>
      refine List.pairwise_cons.mpr ⟨?_, ih fun x hx =>
        h x (List.mem_cons_of_mem a hx)⟩
      intro b hb
      rw [h a (List.mem_cons_self a t), h b (List.mem_cons_of_mem a hb)]

/-- Main BFS loop theorem: from any invariant state with sufficient fuel,
a nonempty result is a shortest chain to the goal below the depth bound, and
an empty result means no chain beats the depth bound. -/
theorem bfsAux_spec (rels : List Relationship) (start endId maxDepth : Nat)
    (hne : start ≠ endId) :
    ∀ (fuel : Nat) (queue : List (Nat × List Relationship))
      (visited : List Nat) (D : Nat → Nat),
      BfsInv rels start endId maxDepth queue visited D →
      queue.length + unvisitedCount rels visited ≤ fuel →
      ∀ res, res = bfsAux (neighborsOf rels) (relMapLookup rels) endId
        maxDepth fuel queue visited →
      (res ≠ [] → Chain rels start endId res ∧ res.length < maxDepth ∧
        ∀ q, Chain rels start endId q → res.length ≤ q.length) ∧
      (res = [] → ∀ q, Chain rels start endId q → maxDepth ≤ q.length) := by
  intro fuel
  induction fuel with
  | zero =>
      intro queue visited D hinv hfuel res hres
      have hq0 : queue = [] := by
        cases queue with
        | nil => rfl
        | cons e t =>
            exfalso
            rw [List.length_cons] at hfuel
            omega
      subst hq0
      subst hres
      constructor
      · intro hr
        exact absurd rfl hr
      · intro _
        exact bfs_empty_complete rels start endId maxDepth visited D hinv hne
  | succ fuel ih =>
      intro queue visited D hinv hfuel res hres
      cases queue with
      | nil =>
          subst hres
          constructor
          · intro hr
            exact absurd rfl hr
          · intro _
            exact bfs_empty_complete rels start endId maxDepth visited D
              hinv hne
      | cons head tail =>
          obtain ⟨c, pth⟩ := head
          obtain ⟨hheadChain0, hheadV0, hheadLen0⟩ :=
            hinv.entries (c, pth) (List.mem_cons_self _ _)
          have hheadChain : Chain rels start c pth := hheadChain0
          have hheadV : c ∈ visited := hheadV0
          have hheadLen : pth.length = D c := hheadLen0
          clear hheadChain0 hheadV0 hheadLen0
          have hsortedTail :
              List.Pairwise (· ≤ ·) (tail.map (fun e => e.2.length)) := by
            have hs := hinv.sorted
            rw [List.map_cons] at hs
            exact (List.pairwise_cons.mp hs).2
          have htailLB : ∀ e ∈ tail, pth.length ≤ e.2.length := by
            intro e he
            have hs := hinv.sorted
            rw [List.map_cons] at hs
            exact (List.pairwise_cons.mp hs).1 e.2.length
              (List.mem_map_of_mem _ he)
          have htailUB : ∀ e ∈ tail, e.2.length ≤ pth.length + 1 :=
            fun e he => hinv.spread e (List.mem_cons_of_mem _ he) (c, pth)
              (List.mem_cons_self _ _)
          have hOldBound : ∀ b ∈ visited, D b ≤ pth.length + 1 :=
            fun b hb => hinv.bounded b hb (c, pth) (List.mem_cons_self _ _)
          by_cases hskip : maxDepth ≤ pth.length
          · rw [bfsAux_cons_skip _ _ _ _ _ _ _ _ _ hskip] at hres
            refine ih tail visited D ⟨?_, hinv.visitedChain, hsortedTail,
              ?_, hinv.startVisited, hinv.startD, ?_, ?_, ?_⟩ ?_ res hres
            · exact fun e he => hinv.entries e (List.mem_cons_of_mem _ he)
            · exact fun e he f hf => hinv.spread e
                (List.mem_cons_of_mem _ he) f (List.mem_cons_of_mem _ hf)
            · intro n hv hnq hdm b hb
              by_cases hnc : n = c
              · subst hnc
                exact absurd hdm (by omega)
              · refine hinv.closure n hv ?_ hdm b hb
                rw [List.map_cons]
                intro hmem
                rcases List.mem_cons.mp hmem with h | h
                · exact hnc h
                · exact hnq h
            · exact fun b hb e he => hinv.bounded b hb e
                (List.mem_cons_of_mem _ he)
            · intro hne' hv
              rcases hinv.endNotProcessed hne' hv with hin | hge
              · rw [List.map_cons] at hin
                rcases List.mem_cons.mp hin with h | h
                · right
                  have h' : endId = c := h
                  rw [h']
                  omega
                · left
                  exact h
              · right
                exact hge
            · rw [List.length_cons] at hfuel
              omega
          · by_cases hcend : c = endId
            · rw [bfsAux_cons_found _ _ _ _ _ _ _ _ _ hskip hcend] at hres
              constructor
              · intro _
                rw [hres]
                refine ⟨by rw [← hcend]; exact hheadChain, by omega, ?_⟩
                intro q hq
                rcases bfs_walk rels start endId maxDepth
                    ((c, pth) :: tail) visited D hinv endId q hq with
                  ⟨e, he, hd⟩ | hmax | ⟨hv, hnq, -, -⟩
                · obtain ⟨-, -, helen⟩ := hinv.entries e he
                  have hmin : pth.length ≤ e.2.length := by
                    rcases List.mem_cons.mp he with rfl | he'
                    · exact Nat.le_refl _
                    · exact htailLB e he'
                  omega
                · omega
                · refine absurd ?_ hnq
                  rw [List.map_cons, ← hcend]
                  exact List.mem_cons_self _ _
              · intro hresnil
                rw [hres] at hresnil
                exact absurd ((chain_nil_eq hheadChain hresnil).trans hcend)
                  hne
            · obtain ⟨adds, visited', hfold, hmono, hback, hallv, hadds,
                hmeas⟩ := enqueueFold_spec rels c pth (neighborsOf rels c)
                  (fun b hb => hb) [] visited
              rw [bfsAux_cons_expand _ _ _ _ _ _ _ _ _ hskip hcend,
                hfold] at hres
              simp only [List.nil_append] at hres
              have haddsLen : ∀ e ∈ adds, e.2.length = pth.length + 1 := by
                intro e he
                obtain ⟨-, -, rel, -, -, he2⟩ := hadds e he
                rw [he2]
                simp
              set upd := fun x => if x ∈ visited then D x
                else pth.length + 1 with hupd
              refine ih (tail ++ adds) visited' upd
                ⟨?_, ?_, ?_, ?_, hmono start hinv.startVisited, ?_, ?_, ?_,
                  ?_⟩ ?_ res hres
              · intro e he
                rcases List.mem_append.mp he with ht | ha
                · obtain ⟨hch, hv, hlen⟩ :=
                    hinv.entries e (List.mem_cons_of_mem _ ht)
                  refine ⟨hch, hmono e.1 hv, ?_⟩
                  simp only [hupd]
                  rw [if_pos hv]
                  exact hlen
                · obtain ⟨hens, henv, rel, hrel, hmatch, he2⟩ := hadds e ha
                  refine ⟨?_, hallv e.1 hens, ?_⟩
                  · rw [he2]
                    exact Chain.snoc hheadChain hrel hmatch
                  · simp only [hupd]
                    rw [if_neg henv, he2]
                    simp
              · intro n hn
                rcases hback n hn with hold | ⟨hns, hmap⟩
                · obtain ⟨p, hp, hlen⟩ := hinv.visitedChain n hold
                  refine ⟨p, hp, ?_⟩
                  simp only [hupd]
                  rw [if_pos hold]
                  exact hlen
                · obtain ⟨eadd, headd, heq1⟩ := List.mem_map.mp hmap
                  obtain ⟨-, henv, rel, hrel, hmatch, -⟩ := hadds eadd headd
                  refine ⟨pth ++ [rel],
                    Chain.snoc hheadChain hrel (heq1 ▸ hmatch), ?_⟩
                  simp only [hupd]
                  rw [if_neg (heq1 ▸ henv)]
                  simp
              · rw [List.map_append, List.pairwise_append]
                refine ⟨hsortedTail,
                  pairwise_le_of_const _ (pth.length + 1) ?_, ?_⟩
                · intro x hx
                  obtain ⟨e, he, hex⟩ := List.mem_map.mp hx
                  rw [← hex]
                  exact haddsLen e he
                · intro a ha b hb
                  obtain ⟨e, he, hea⟩ := List.mem_map.mp ha
                  obtain ⟨f, hf, hfb⟩ := List.mem_map.mp hb
                  rw [← hea, ← hfb, haddsLen f hf]
                  exact htailUB e he
              · intro e he f hf
                rcases List.mem_append.mp he with hte | hae <;>
                  rcases List.mem_append.mp hf with htf | haf
                · exact hinv.spread e (List.mem_cons_of_mem _ hte) f
                    (List.mem_cons_of_mem _ htf)
                · rw [haddsLen f haf]
                  have := htailUB e hte
                  omega
                · rw [haddsLen e hae]
                  have := htailLB f htf
                  omega
                · rw [haddsLen e hae, haddsLen f haf]
                  omega
              · simp only [hupd]
                rw [if_pos hinv.startVisited]
                exact hinv.startD
              · intro n hnv hnq hdm0 b hb
                rcases hback n hnv with hold | ⟨hns, hmap⟩
                · have hDn : upd n = D n := by
                    simp only [hupd]
                    rw [if_pos hold]
                  by_cases hnc : n = c
                  · subst hnc
                    refine ⟨hallv b hb, ?_⟩
                    by_cases hbv : b ∈ visited
                    · have hb1 : upd b = D b := by
                        simp only [hupd]
                        rw [if_pos hbv]
                      have := hOldBound b hbv
                      rw [hb1, hDn, ← hheadLen]
                      omega
                    · have hb1 : upd b = pth.length + 1 := by
                        simp only [hupd]
                        rw [if_neg hbv]
                      rw [hb1, hDn, ← hheadLen]
                  · have hnq' : n ∉ ((c, pth) :: tail).map Prod.fst := by
                      rw [List.map_cons]
                      intro hmem
                      rcases List.mem_cons.mp hmem with h | h
                      · exact hnc h
                      · exact hnq
                          (by rw [List.map_append]; exact List.mem_append_left _ h)
                    have hdm : D n < maxDepth := by
                      rw [hDn] at hdm0
                      exact hdm0
                    obtain ⟨hbv, hDb⟩ := hinv.closure n hold hnq' hdm b hb
                    refine ⟨hmono b hbv, ?_⟩
                    have hb1 : upd b = D b := by
                      simp only [hupd]
                      rw [if_pos hbv]
                    rw [hb1, hDn]
                    exact hDb
                · exfalso
                  exact hnq
                    (by rw [List.map_append]; exact List.mem_append_right _ hmap)
              · intro b hbv' e he
                rcases List.mem_append.mp he with hte | hae
                · rcases hback b hbv' with hold | ⟨-, hmap⟩
                  · have hb1 : upd b = D b := by
                      simp only [hupd]
                      rw [if_pos hold]
                    rw [hb1]
                    exact hinv.bounded b hold e (List.mem_cons_of_mem _ hte)
                  · obtain ⟨eadd, headd, heq1⟩ := List.mem_map.mp hmap
                    have henv := (hadds eadd headd).2.1
                    have hb1 : upd b = pth.length + 1 := by
                      simp only [hupd]
                      rw [if_neg (heq1 ▸ henv)]
                    rw [hb1]
                    have := htailLB e hte
                    omega
                · rw [haddsLen e hae]
                  rcases hback b hbv' with hold | ⟨-, hmap⟩
                  · have hb1 : upd b = D b := by
                      simp only [hupd]
                      rw [if_pos hold]
                    rw [hb1]
                    have := hOldBound b hold
                    omega
                  · obtain ⟨eadd, headd, heq1⟩ := List.mem_map.mp hmap
                    have henv := (hadds eadd headd).2.1
                    have hb1 : upd b = pth.length + 1 := by
                      simp only [hupd]
                      rw [if_neg (heq1 ▸ henv)]
                    rw [hb1]
                    omega
              · intro hne' hv'
                rcases hback endId hv' with hold | ⟨-, hmap⟩
                · rcases hinv.endNotProcessed hne' hold with hin | hge
                  · rw [List.map_cons] at hin
                    rcases List.mem_cons.mp hin with h | h
                    · exact absurd h.symm hcend
                    · left
                      rw [List.map_append]
                      exact List.mem_append_left _ h
                  · right
                    have hb1 : upd endId = D endId := by
                      simp only [hupd]
                      rw [if_pos hold]
                    rw [hb1]
                    exact hge
                · left
                  rw [List.map_append]
                  exact List.mem_append_right _ hmap
              · rw [List.length_append]
                rw [List.length_cons] at hfuel
                omega

/-- Each relationship contributes its two endpoints to the node list. -/
theorem nodesOf_length (rels : List Relationship) :
    (nodesOf rels).length = 2 * rels.length := by
  induction rels with
  | nil => rfl
  | cons r t ih =>
      show (nodesOf (r :: t)).length = 2 * (t.length + 1)
      unfold nodesOf at ih ⊢
      rw [List.flatMap_cons, List.length_append, ih]
      simp
      omega

/-- `_find_shortest_path` on the full fuel budget: a nonempty result is a
shortest chain below the depth bound; an empty result refutes every chain
below the bound. -/
theorem findShortestPath_spec (rels : List Relationship)
    (start endId maxDepth : Nat) (hne : start ≠ endId) :
    (findShortestPath rels start endId maxDepth ≠ [] →
      Chain rels start endId (findShortestPath rels start endId maxDepth) ∧
      (findShortestPath rels start endId maxDepth).length < maxDepth ∧
      ∀ q, Chain rels start endId q →
        (findShortestPath rels start endId maxDepth).length ≤ q.length) ∧
    (findShortestPath rels start endId maxDepth = [] →
      ∀ q, Chain rels start endId q → maxDepth ≤ q.length) := by
  by_cases hg : (inGraphB rels start && inGraphB rels endId) = true
  · have heq : findShortestPath rels start endId maxDepth =
        bfsAux (neighborsOf rels) (relMapLookup rels) endId maxDepth
          (2 * rels.length + 2) [(start, [])] [start] := by
      unfold findShortestPath
      rw [if_pos hg]
    have hinv0 : BfsInv rels start endId maxDepth [(start, [])] [start]
        (fun _ => 0) := by
      constructor
      · intro e he
        rcases List.mem_singleton.mp he with rfl
        exact ⟨Chain.nil start, List.mem_singleton.mpr rfl, rfl⟩
      · intro n hn
        rcases List.mem_singleton.mp hn with rfl
        exact ⟨[], Chain.nil n, rfl⟩
      · simp
      · intro e he f hf
        rcases List.mem_singleton.mp he with rfl
        simp
      · exact List.mem_singleton.mpr rfl
      · rfl
      · intro n hn hnq hdm b hb
        rcases List.mem_singleton.mp hn with rfl
        exact absurd (by simp : n ∈ [(n, ([] : List Relationship))].map
          Prod.fst) hnq
      · intro b hb e he
        exact Nat.zero_le _
      · intro hne' hv
        rcases List.mem_singleton.mp hv with h
        exact absurd h.symm hne'
    have hmeas : ([(start, ([] : List Relationship))]).length +
        unvisitedCount rels [start] ≤ 2 * rels.length + 2 := by
      have h1 : unvisitedCount rels [start] ≤ (nodesOf rels).length :=
        List.countP_le_length _
      have h2 := nodesOf_length rels
      rw [List.length_singleton]
      omega
    obtain ⟨hsound, hcomp⟩ := bfsAux_spec rels start endId maxDepth hne
      (2 * rels.length + 2) [(start, [])] [start] (fun _ => 0) hinv0 hmeas
      (findShortestPath rels start endId maxDepth) heq
    exact ⟨hsound, hcomp⟩
  · have heq : findShortestPath rels start endId maxDepth = [] := by
      unfold findShortestPath
      rw [if_neg hg]
    constructor
    · intro hcon
      exact absurd heq hcon
    · intro _ q hq
      rcases Classical.em (q = []) with h0 | h0
      · exact absurd (chain_nil_eq hq h0) hne
      · obtain ⟨h1, h2⟩ := chain_endpoints_inGraph hq h0
        exact absurd (by simp [h1, h2]) hg

/-- Asking for a path from a person to themselves returns the empty path at
the BFS level. -/
theorem findShortestPath_self (rels : List Relationship) (s d : Nat) :
    findShortestPath rels s s d = [] := by
  unfold findShortestPath
  split
  · show bfsAux (neighborsOf rels) (relMapLookup rels) s d
      (2 * rels.length + 1 + 1) [(s, [])] [s] = []
    cases d with
    | zero =>
        rw [bfsAux_cons_skip _ _ _ _ _ _ _ _ _ (Nat.zero_le _)]
        rfl
    | succ k =>
        rw [bfsAux_cons_found _ _ _ _ _ _ _ _ _ (by simp) rfl]
  · rfl

/-- The grandparent-to-parent edge of the three-generation chain. -/
def chainRel1 : Relationship :=
  { id := 10, from_person_id := 1, to_person_id := 2
    relationship_category := RCategory.family_line
    relationship_subtype := some "biological_parent"
    generation_difference := some (-1)
    start_date := none, end_date := none
    is_active := true, notes := none }

/-- The parent-to-child edge of the three-generation chain. -/
def chainRel2 : Relationship :=
  { id := 11, from_person_id := 2, to_person_id := 3
    relationship_category := RCategory.family_line
    relationship_subtype := some "biological_parent"
    generation_difference := some (-1)
    start_date := none, end_date := none
    is_active := true, notes := none }

/-- Claim C4: over the adjacency graph of a tree's relationships, a nonempty
`find_path` BFS result is a chain of stored relationship rows forming a
shortest connecting path within the loop's depth bound, and whenever a
connecting chain within the bound exists the search reports it; when nothing
is found the result is the normal not-found value.  On the chain
G=1 → P=2 → C=3, depth 5 finds the two-edge path and depth 1 reports
not-found. -/
theorem claim_C4_find_path :
    (∀ (rels : List Relationship) (p1 p2 d : Nat), p1 ≠ p2 →
      (findShortestPath rels p1 p2 d ≠ [] →
        Chain rels p1 p2 (findShortestPath rels p1 p2 d) ∧
        (findShortestPath rels p1 p2 d).length < d ∧
        ∀ q, Chain rels p1 p2 q →
          (findShortestPath rels p1 p2 d).length ≤ q.length) ∧
      ((∃ q, Chain rels p1 p2 q ∧ q.length < d) →
        findShortestPath rels p1 p2 d ≠ [])) ∧
    findRelationshipPath chainState 1 3 5 =
      .ok { path := [chainRel1, chainRel2], relationship_found := true } ∧
    findRelationshipPath chainState 1 3 1 =
      .ok { path := [], relationship_found := false } := by
  refine ⟨?_, rfl, rfl⟩
  intro rels p1 p2 d hne
  obtain ⟨hs, hc⟩ := findShortestPath_spec rels p1 p2 d hne
  refine ⟨hs, ?_⟩
  rintro ⟨q, hq, hlen⟩ hnil
  exact absurd (hc hnil q hq) (by omega)

/-- Witness for `claim_C4_find_path`: the chain graph connects 1 to 3 within
depth 5, so the search result is nonempty. -/
theorem claim_C4_find_path_witness :
    findShortestPath [chainRel1, chainRel2] 1 3 5 ≠ [] :=
  (claim_C4_find_path.1 [chainRel1, chainRel2] 1 3 5 (by decide)).2
    ⟨[chainRel1, chainRel2],
      Chain.snoc (p := [chainRel1]) (b := 2)
        (Chain.snoc (p := []) (b := 1) (Chain.nil 1) (by simp) (by rfl))
        (by simp) (by rfl),
      by decide⟩

/-- A single direct parent-to-child edge between persons 1 and 2. -/
def edgeRel : Relationship :=
  { id := 10, from_person_id := 1, to_person_id := 2
    relationship_category := RCategory.family_line
    relationship_subtype := some "biological_parent"
    generation_difference := some (-1)
    start_date := none, end_date := none
    is_active := true, notes := none }

/-- Tree holding only the direct edge 1 → 2. -/
def edgeState : DBState :=
  { trees := [1]
    persons := [{ id := 1, family_tree_id := 1, birth_date := none, death_date := none },
      { id := 2, family_tree_id := 1, birth_date := none, death_date := none }]
    rels := [edgeRel]
    nextId := 11 }

/-- Claim C10 (implicit): the BFS helper only ever returns paths with
strictly fewer than `max_depth` edges, so a pair whose shortest connecting
chain has exactly `max_depth` edges is reported as not-found; in particular
with `max_depth = 1` even the single direct edge 1 → 2 yields not-found. -/
theorem claim_C10_depth_bound :
    (∀ (rels : List Relationship) (p1 p2 d : Nat),
      findShortestPath rels p1 p2 d ≠ [] →
      (findShortestPath rels p1 p2 d).length < d) ∧
    (∀ (rels : List Relationship) (p1 p2 d : Nat), p1 ≠ p2 →
      (∃ q, Chain rels p1 p2 q ∧ q.length = d ∧
        ∀ q', Chain rels p1 p2 q' → d ≤ q'.length) →
      findShortestPath rels p1 p2 d = []) ∧
    findRelationshipPath edgeState 1 2 1 =
      .ok { path := [], relationship_found := false } := by
  refine ⟨?_, ?_, rfl⟩
  · intro rels p1 p2 d hne0
    by_cases hpp : p1 = p2
    · subst hpp
      rw [findShortestPath_self] at hne0
      exact absurd rfl hne0
    · exact ((findShortestPath_spec rels p1 p2 d hpp).1 hne0).2.1
  · rintro rels p1 p2 d hne ⟨q, hq, hlen, hmin⟩
    by_contra hcon
    obtain ⟨-, hlt, -⟩ := (findShortestPath_spec rels p1 p2 d hne).1 hcon
    have := hmin _ ((findShortestPath_spec rels p1 p2 d hne).1 hcon).1
    omega

/-- Witness for `claim_C10_depth_bound`: the one-edge result at depth 2 on
the single-edge graph is below the bound. -/
theorem claim_C10_depth_bound_witness :
    (findShortestPath [edgeRel] 1 2 2).length < 2 :=
  claim_C10_depth_bound.1 [edgeRel] 1 2 2 (by decide)

end FamilyTreeApp
